import Mathlib

/-!
# winshell: the shell namespace ID list codec and the in-memory stream buffer

A shallow embedding of `shellns/list.go` and `shobjidl/streambuffer.go`.

Conventions of the embedding

* A Go `[]byte` is a `List Byte`; a byte is a natural number and every byte the
  code itself produces is reduced modulo 256.
* A Go run-time panic (a slice bound out of range) is the result `none`.
* Go's `int` and `int64` are 64 bit two's complement integers: they are
  integers of Lean, and an addition that can leave the 64 bit range is wrapped
  by `Go.wrapInt64`.  Lengths of slices are naturals; the capacity of a slice
  is taken to be its length.
* An `append` that grows a slice allocates.  `StreamBuffer.write` and
  `StreamBuffer.setSize` describe the two methods when the allocation succeeds;
  `StreamBuffer.writeAlloc` and `StreamBuffer.setSizeAlloc` describe them with the
  allocation: the result is `none` when the runtime cannot allocate the grown
  slice, as it is for a panic.
-/

set_option autoImplicit false

namespace Go

/-- A byte of a Go `[]byte`. -/
abbrev Byte := Nat

/-- Conversion `uint16(v)` of a non-negative `int`. -/
def uint16 (v : Nat) : Nat := v % 65536

/-- Conversion `uint32(v)` of a non-negative `int`. -/
def uint32 (v : Nat) : Nat := v % 4294967296

/-- Conversion `uint64(v)` of an `int`. -/
def uint64 (v : Int) : Nat := (v % 18446744073709551616).toNat

/-- Result of a 64 bit signed addition or conversion: the representative of `x`
modulo `2^64` in the range `[-2^63, 2^63)`. -/
def wrapInt64 (x : Int) : Int :=
  (x + 9223372036854775808) % 18446744073709551616 - 9223372036854775808

/-- The statement `binary.LittleEndian.PutUint16(data[off:off+2], v)`: the slice
expression panics unless `off + 2` is within the slice, then the low byte of `v`
is stored at `off` and the high byte at `off + 1`. -/
def putUint16At (data : List Byte) (off : Nat) (v : Nat) : Option (List Byte) :=
  if off + 2 ≤ data.length then
    some (data.take off ++ [v % 256, v / 256 % 256] ++ data.drop (off + 2))
  else
    none

/-- The expression `copy(data[off:], src)`: the slice expression panics unless
`off` is within the slice, then `min(len(data) - off, len(src))` bytes of
`src` are stored from `off` on.  The result is the slice after the copy and the
number of bytes copied. -/
def copyFrom (data : List Byte) (off : Nat) (src : List Byte) : Option (List Byte × Nat) :=
  if off ≤ data.length then
    let n := min (data.length - off) src.length
    some (data.take off ++ src.take n ++ data.drop (off + n), n)
  else
    none

/-- The slice expression `data[off:]` for an `int` index: it panics unless
`0 ≤ off ≤ len(data)`. -/
def sliceFrom (data : List Byte) (off : Int) : Option (List Byte) :=
  if 0 ≤ off ∧ off ≤ (data.length : Int) then some (data.drop off.toNat) else none

/-- The expression `copy(dst, src)`: `min(len(dst), len(src))` bytes of `src` are
stored at the start of `dst`.  The result is `dst` after the copy and the number
of bytes copied. -/
def copy (dst src : List Byte) : List Byte × Nat :=
  let n := min dst.length src.length
  (src.take n ++ dst.drop n, n)

/-- The expression `append(data, make([]byte, k)...)` when the allocation
succeeds. -/
def grow (data : List Byte) (k : Nat) : List Byte := data ++ List.replicate k 0

/-- The constant `maxAlloc` of the Go runtime on a 64 bit platform, `1 << 48`: no
slice of more bytes is ever allocated. -/
def maxAlloc : Nat := 281474976710656

/-- The expression `append(data, make([]byte, k)...)` with its allocation.  The
number `avail` is the length of the longest byte slice the runtime can allocate at
the call.  When the grown slice is longer than `avail` or than `maxAlloc` the
runtime panics (`growslice: len out of range`) or stops the program (out of
memory): the result is `none`. -/
def growAlloc (avail : Nat) (data : List Byte) (k : Nat) : Option (List Byte) :=
  if data.length + k ≤ avail ∧ data.length + k ≤ maxAlloc then some (grow data k) else none

end Go

namespace shellns

open Go

/-- Modelled from the spec: the declaration of the type `Item` is not among the
sources; the spec calls an item an opaque byte string, and `list.go` takes its
`len` and passes it to `copy` as the source, so an item is a byte slice. -/
abbrev Item := List Byte

/-- The two errors `List.MarshalBinaryTo` builds with `fmt.Errorf`, with the
numbers they print. -/
inductive MarshalError where
  | exceedsLimit (size : Nat)
  | bufferTooSmall (size : Nat) (held : Nat)
  deriving DecidableEq

/-- What `List.MarshalBinaryTo` leaves behind: the contents of the destination
slice and the returned `error` (`none` for `nil`). -/
structure MarshalResult where
  data : List Byte
  err : Option MarshalError
  deriving DecidableEq

/-- Method `List.Size`: the number of bytes needed to marshal the list. -/
def List.Size (list : List Item) : Nat :=
  list.foldl (fun total item => total + 2 + item.length) (0 + 2) + 2

/-- The loop over the items in `List.MarshalBinaryTo`, from the write cursor
`offset` on; the result is the slice and the cursor after the loop. -/
def List.marshalItems : List Item → List Byte → Nat → Option (List Byte × Nat)
  | [], data, offset => some (data, offset)
  | item :: rest, data, offset =>
    match putUint16At data offset (uint16 item.length) with
    | none => none
    | some data1 =>
      match copyFrom data1 (offset + 2) item with
      | none => none
      | some (data2, _) => List.marshalItems rest data2 (offset + 2 + item.length)

/-- Method `List.MarshalBinaryTo`: writes the binary representation of the list to
`data`. -/
def List.MarshalBinaryTo (list : List Item) (data : List Byte) : Option MarshalResult :=
  let size := List.Size list
  if size > 65535 then
    some { data := data, err := some (MarshalError.exceedsLimit size) }
  else if data.length < size then
    some { data := data, err := some (MarshalError.bufferTooSmall size data.length) }
  else
    match putUint16At data 0 (uint16 list.length) with
    | none => none
    | some data1 =>
      match List.marshalItems list data1 2 with
      | none => none
      | some (data2, offset) =>
        match putUint16At data2 offset 0 with
        | none => none
        | some data3 => some { data := data3, err := none }

/-- Method `List.MarshalBinary`: allocates `Size` zero bytes and marshals into them;
the slice is returned together with the error. -/
def List.MarshalBinary (list : List Item) : Option MarshalResult :=
  List.MarshalBinaryTo list (List.replicate (List.Size list) 0)

/-- Little-endian 16 bit representation of a number below 65536. -/
def le16 (v : Nat) : List Byte := [v % 256, v / 256]

/-- The wire encoding in the words of the specification: the item count as a
little-endian 16 bit integer, then for each item in list order its length as a
little-endian 16 bit integer followed by its bytes, then the bytes 00 00. -/
def wireEncoding (list : List Item) : List Byte :=
  le16 list.length ++ (list.map (fun item => le16 item.length ++ item)).flatten ++ [0, 0]

/-- Bytes taken by the item entries: a 2 byte header and the item, for each item. -/
def itemsSize (list : List Item) : Nat := (list.map (fun item => 2 + item.length)).sum

/-- The item entries of the wire encoding. -/
def itemsEncoding (list : List Item) : List Byte :=
  (list.map (fun item => le16 item.length ++ item)).flatten

end shellns

namespace shobjidl

open Go

/-- Status `E_FAIL`. -/
def efail : Nat := 0x80004005

/-- Status `E_INVALIDARG`. -/
def einvalidarg : Nat := 0x80070057

/-- Status `E_NOTIMPL`. -/
def enotimpl : Nat := 0x80004001

/-- The constant `maxChunk` of `read` and `write`. -/
def maxChunk : Nat := 4096

/-- The constants `io.SeekStart`, `io.SeekCurrent` and `io.SeekEnd`. -/
def SeekStart : Nat := 0

/-- See `SeekStart`. -/
def SeekCurrent : Nat := 1

/-- See `SeekStart`. -/
def SeekEnd : Nat := 2

/-- The state of a `StreamBuffer`: the slice `data` and the `int` cursor `offset`.
The fields `vtable`, `mutex` and `log` are left out: no method reads or writes
`vtable` or `log`, and the embedding is sequential. -/
structure StreamBuffer where
  data : List Byte
  offset : Int
  deriving DecidableEq

/-- Function `NewStreamBuffer`: `data` is the nil slice and `offset` is zero. -/
def NewStreamBuffer : StreamBuffer := { data := [], offset := 0 }

/-- Method `StreamBuffer.Bytes`: the content of the stream buffer. -/
def StreamBuffer.Bytes (b : StreamBuffer) : List Byte := b.data

/-- What a call of `read` or `write` leaves behind: the returned status, the
state of the stream buffer, the byte array behind the pointer `buf`, and the
cell behind the pointer `n` (`none` when `n` is nil). -/
structure TransferResult where
  status : Nat
  b : StreamBuffer
  buf : List Byte
  n : Option Nat
  deriving DecidableEq

/-- What a call of `seek` leaves behind: the returned status, the state of the
stream buffer, and the cell behind the pointer `pos` (`none` when `pos` is nil). -/
structure SeekResult where
  status : Nat
  b : StreamBuffer
  pos : Option Nat
  deriving DecidableEq

/-- What a call without out-parameters leaves behind: the returned status and the
state of the stream buffer. -/
structure StatusResult where
  status : Nat
  b : StreamBuffer
  deriving DecidableEq

/-- Method `StreamBuffer.read`.  The pointer `buf` is a byte array of size `bufSize`, here
the list `buf` with `bufSize = buf.length`; `n` is the cell behind the pointer `n`.
The slice `out` is `buf.take maxChunk`.  The sum `b.offset + _n` is at most
`len(b.data)`, so it is within `int`. -/
def StreamBuffer.read (b : StreamBuffer) (buf : List Byte) (n : Option Nat) :
    Option TransferResult :=
  if b.offset ≥ (b.data.length : Int) then
    some { status := 0, b := b, buf := buf, n := n.map (fun _ => 0) }
  else
    let out := buf.take maxChunk
    match sliceFrom b.data b.offset with
    | none => none
    | some src =>
      let r := copy out src
      some { status := 0
             b := { data := b.data, offset := b.offset + (r.2 : Int) }
             buf := r.1 ++ buf.drop maxChunk
             n := n.map (fun _ => uint32 r.2) }

/-- Method `StreamBuffer.write`, when the allocation in `append` succeeds (see
`StreamBuffer.writeAlloc`).  The pointer `buf` is a byte array of size `bufSize`, here
the list `buf` with `bufSize = buf.length`; `n` is the cell behind the pointer `n`.
The slice `in` is `buf.take maxChunk`.  The sum `b.offset + len(in)` is a 64 bit
addition; the sum `b.offset + _n` is at most `len(b.data)`, so it is within `int`. -/
def StreamBuffer.write (b : StreamBuffer) (buf : List Byte) (n : Option Nat) :
    Option TransferResult :=
  let inp := buf.take maxChunk
  let size : Int := (b.data.length : Int)
  let needed : Int := wrapInt64 (b.offset + (inp.length : Int))
  let data1 := if size < needed then grow b.data (needed - size).toNat else b.data
  if b.offset < 0 then
    none
  else
    match copyFrom data1 b.offset.toNat inp with
    | none => none
    | some (data2, _n) =>
      some { status := 0
             b := { data := data2, offset := b.offset + (_n : Int) }
             buf := buf
             n := n.map (fun _ => uint32 _n) }

/-- Method `StreamBuffer.seek`.  The argument `offset` is an `int64`, read through
`wrapInt64` (the identity on every `int64`); `whence` is a `uint32`; `pos` is the
cell behind the pointer `pos`.  The two sums are 64 bit additions. -/
def StreamBuffer.seek (b : StreamBuffer) (offset : Int) (whence : Nat) (pos : Option Nat) :
    SeekResult :=
  let target : Option Int :=
    if whence = SeekStart then some (wrapInt64 offset)
    else if whence = SeekCurrent then some (wrapInt64 (b.offset + wrapInt64 offset))
    else if whence = SeekEnd then some (wrapInt64 ((b.data.length : Int) + wrapInt64 offset))
    else none
  match target with
  | none => { status := einvalidarg, b := b, pos := pos }
  | some off =>
    if off < 0 then
      { status := einvalidarg, b := b, pos := pos }
    else
      { status := 0, b := { data := b.data, offset := off }, pos := pos.map (fun _ => uint64 off) }

/-- Method `StreamBuffer.setSize`, when the allocation in `append` succeeds (see
`StreamBuffer.setSizeAlloc`).  The argument `size` is an `int64`, read through
`wrapInt64`. -/
def StreamBuffer.setSize (b : StreamBuffer) (size : Int) : StatusResult :=
  let len : Int := (b.data.length : Int)
  let needed : Int := wrapInt64 size
  if len < needed then
    { status := 0, b := { data := grow b.data (needed - len).toNat, offset := b.offset } }
  else
    { status := 0, b := b }

/-- Method `StreamBuffer.write` with the allocation in `append`: the statements of
`StreamBuffer.write` in the order of the source, where growing `b.data` goes through
`growAlloc avail` and can fail.  The arguments are those of `StreamBuffer.write`. -/
def StreamBuffer.writeAlloc (avail : Nat) (b : StreamBuffer) (buf : List Byte)
    (n : Option Nat) : Option TransferResult :=
  let inp := buf.take maxChunk
  let size : Int := (b.data.length : Int)
  let needed : Int := wrapInt64 (b.offset + (inp.length : Int))
  match (if size < needed then growAlloc avail b.data (needed - size).toNat
         else some b.data) with
  | none => none
  | some data1 =>
    if b.offset < 0 then
      none
    else
      match copyFrom data1 b.offset.toNat inp with
      | none => none
      | some (data2, _n) =>
        some { status := 0
               b := { data := data2, offset := b.offset + (_n : Int) }
               buf := buf
               n := n.map (fun _ => uint32 _n) }

/-- Method `StreamBuffer.setSize` with the allocation in `append`: growing `b.data`
goes through `growAlloc avail` and can fail.  The argument is that of
`StreamBuffer.setSize`. -/
def StreamBuffer.setSizeAlloc (avail : Nat) (b : StreamBuffer) (size : Int) :
    Option StatusResult :=
  let len : Int := (b.data.length : Int)
  let needed : Int := wrapInt64 size
  if len < needed then
    match growAlloc avail b.data (needed - len).toNat with
    | none => none
    | some data1 => some { status := 0, b := { data := data1, offset := b.offset } }
  else
    some { status := 0, b := b }

/-- Method `StreamBuffer.queryInterface`. -/
def StreamBuffer.queryInterface (b : StreamBuffer) : StatusResult := { status := enotimpl, b := b }

/-- Method `StreamBuffer.addRef`. -/
def StreamBuffer.addRef (b : StreamBuffer) : StatusResult := { status := 0, b := b }

/-- Method `StreamBuffer.release`. -/
def StreamBuffer.release (b : StreamBuffer) : StatusResult := { status := 0, b := b }

/-- Method `StreamBuffer.copyTo`. -/
def StreamBuffer.copyTo (b : StreamBuffer) : StatusResult := { status := enotimpl, b := b }

/-- Method `StreamBuffer.commit`. -/
def StreamBuffer.commit (b : StreamBuffer) : StatusResult := { status := enotimpl, b := b }

/-- Method `StreamBuffer.revert`. -/
def StreamBuffer.revert (b : StreamBuffer) : StatusResult := { status := enotimpl, b := b }

/-- Method `StreamBuffer.lockRegion`. -/
def StreamBuffer.lockRegion (b : StreamBuffer) : StatusResult := { status := enotimpl, b := b }

/-- Method `StreamBuffer.unlockRegion`. -/
def StreamBuffer.unlockRegion (b : StreamBuffer) : StatusResult := { status := enotimpl, b := b }

/-- Method `StreamBuffer.stat`. -/
def StreamBuffer.stat (b : StreamBuffer) : StatusResult := { status := enotimpl, b := b }

/-- Method `StreamBuffer.clone`. -/
def StreamBuffer.clone (b : StreamBuffer) : StatusResult := { status := enotimpl, b := b }

/-- The reference definition of `write` in the words of the specification: with
`k = min(len(src), 4096)`, the new buffer has length `max(len(data), offset + k)`,
holds `src[0..k)` at the positions `[offset, offset + k)`, zero at every position
in `[len(data), offset)` and the old byte at every other position below
`len(data)`; the new offset is `offset + k`, the reported count is `k` and the
status is 0. -/
def writeSpec (b : StreamBuffer) (src : List Byte) (n : Option Nat) : TransferResult :=
  let k := min src.length 4096
  let off := b.offset.toNat
  { status := 0
    b := { data := (List.range (max b.data.length (off + k))).map (fun i =>
                     if off ≤ i ∧ i < off + k then (src[i - off]?).getD 0
                     else if i < b.data.length then (b.data[i]?).getD 0
                     else 0)
           offset := b.offset + (k : Int) }
    buf := src
    n := n.map (fun _ => k) }

/-- The number of bytes a `read` transfers in the words of the specification:
`min(requestedLen, CHUNK_CAP, len(buffer) - offset)`. -/
def readCount (b : StreamBuffer) (requestedLen : Nat) : Nat :=
  min (min requestedLen 4096) (b.data.length - b.offset.toNat)

/-- The base of a `seek` in the words of the specification: 0 for `FromStart`, the
current offset for `FromCurrent`, `len(buffer)` for `FromEnd`; any other origin
has no base. -/
def seekBase (b : StreamBuffer) (origin : Nat) : Option Int :=
  if origin = 0 then some 0
  else if origin = 1 then some b.offset
  else if origin = 2 then some (b.data.length : Int)
  else none

/-- The methods of `StreamBuffer` in `streambuffer.go`. -/
inductive Method where
  | Bytes | queryInterface | addRef | release | read | write | seek | setSize
  | copyTo | commit | revert | lockRegion | unlockRegion | stat | clone
  deriving DecidableEq

/-- How a method holds `b.mutex` for its duration. -/
inductive Guard where
  | unguarded | shared | exclusive
  deriving DecidableEq

/-- The guard each method takes in `streambuffer.go`: `Bytes` and `read` open with
`b.mutex.RLock()` and `defer b.mutex.RUnlock()`, `write` and `seek` open with
`b.mutex.Lock()` and `defer b.mutex.Unlock()`, and no other method touches
`b.mutex`. -/
def guardOf : Method → Guard
  | Method.Bytes => Guard.shared
  | Method.read => Guard.shared
  | Method.write => Guard.exclusive
  | Method.seek => Guard.exclusive
  | Method.setSize => Guard.unguarded
  | Method.queryInterface => Guard.unguarded
  | Method.addRef => Guard.unguarded
  | Method.release => Guard.unguarded
  | Method.copyTo => Guard.unguarded
  | Method.commit => Guard.unguarded
  | Method.revert => Guard.unguarded
  | Method.lockRegion => Guard.unguarded
  | Method.unlockRegion => Guard.unguarded
  | Method.stat => Guard.unguarded
  | Method.clone => Guard.unguarded

/-- The function table `IShellLinkVtbl`: the three slots of the embedded
`ole.IUnknownVtbl`, then the slots of `IShellLinkW` in declaration order.  A slot is
the address of the function. -/
structure IShellLinkVtbl where
  QueryInterface : Nat
  AddRef : Nat
  Release : Nat
  GetPath : Nat
  GetIDList : Nat
  SetIDList : Nat
  GetDescription : Nat
  SetDescription : Nat
  GetWorkingDirectory : Nat
  SetWorkingDirectory : Nat
  GetArguments : Nat
  SetArguments : Nat
  GetHotkey : Nat
  SetHotkey : Nat
  GetShowCmd : Nat
  SetShowCmd : Nat
  GetIconLocation : Nat
  SetIconLocation : Nat
  SetRelativePath : Nat
  Resolve : Nat
  SetPath : Nat
  deriving DecidableEq

/-- A call `syscall.Syscall(trap, nargs, ...)` or `syscall.Syscall6(trap, nargs, ...)`:
the address that is invoked and the number of arguments. -/
structure ComCall where
  trap : Nat
  nargs : Nat
  deriving DecidableEq

/-- The call that `IShellLink.GetPath` issues. -/
def IShellLink.GetPath (vtable : IShellLinkVtbl) : ComCall :=
  { trap := vtable.GetPath, nargs := 5 }

/-- The call that `IShellLink.SetPath` issues; `syscall.UTF16PtrFromString` fails,
and no call is issued, when the string holds a NUL byte. -/
def IShellLink.SetPath (vtable : IShellLinkVtbl) (path : List Byte) : Option ComCall :=
  if 0 ∈ path then none else some { trap := vtable.SetPath, nargs := 2 }

/-- The call that `IShellLink.GetDescription` issues. -/
def IShellLink.GetDescription (vtable : IShellLinkVtbl) : ComCall :=
  { trap := vtable.GetPath, nargs := 3 }

/-- The call that `IShellLink.SetDescription` issues; `syscall.UTF16PtrFromString`
fails, and no call is issued, when the string holds a NUL byte. -/
def IShellLink.SetDescription (vtable : IShellLinkVtbl) (description : List Byte) :
    Option ComCall :=
  if 0 ∈ description then none else some { trap := vtable.SetPath, nargs := 2 }

/-- A function table with a different address in every slot. -/
def sampleVtbl : IShellLinkVtbl :=
  { QueryInterface := 1000, AddRef := 1008, Release := 1016, GetPath := 1024,
    GetIDList := 1032, SetIDList := 1040, GetDescription := 1048, SetDescription := 1056,
    GetWorkingDirectory := 1064, SetWorkingDirectory := 1072, GetArguments := 1080,
    SetArguments := 1088, GetHotkey := 1096, SetHotkey := 1104, GetShowCmd := 1112,
    SetShowCmd := 1120, GetIconLocation := 1128, SetIconLocation := 1136,
    SetRelativePath := 1144, Resolve := 1152, SetPath := 1160 }

end shobjidl

namespace Go

theorem putUint16At_append (pre h post : List Byte) (v : Nat) (hh : h.length = 2) :
    putUint16At (pre ++ h ++ post) pre.length v
      = some (pre ++ [v % 256, v / 256 % 256] ++ post) := by
  have hlen : pre.length + 2 ≤ (pre ++ h ++ post).length := by
    simp only [List.length_append]; omega
  have htake : (pre ++ h ++ post).take pre.length = pre := by
    rw [List.append_assoc, List.take_left]
  have hdrop : (pre ++ h ++ post).drop (pre.length + 2) = post := by
    have : pre.length + 2 = (pre ++ h).length := by simp [hh]
    rw [this, List.drop_left]
  simp only [putUint16At, hlen, if_true, htake, hdrop]

theorem copyFrom_append (pre m post src : List Byte) (hm : m.length = src.length) :
    copyFrom (pre ++ m ++ post) pre.length src = some (pre ++ src ++ post, src.length) := by
  have hlen : pre.length ≤ (pre ++ m ++ post).length := by
    simp only [List.length_append]; omega
  have hn : min ((pre ++ m ++ post).length - pre.length) src.length = src.length := by
    simp only [List.length_append]; omega
  have htake : (pre ++ m ++ post).take pre.length = pre := by
    rw [List.append_assoc, List.take_left]
  have hdrop : (pre ++ m ++ post).drop (pre.length + src.length) = post := by
    have : pre.length + src.length = (pre ++ m).length := by simp [hm]
    rw [this, List.drop_left]
  simp only [copyFrom, hlen, if_true, hn, htake, hdrop, List.take_length]

theorem take_append_of_length {α : Type} (l1 l2 : List α) (k : Nat) (h : l1.length = k) :
    (l1 ++ l2).take k = l1 := by
  rw [← h, List.take_left]

theorem drop_append_of_length {α : Type} (l1 l2 : List α) (k : Nat) (h : l1.length = k) :
    (l1 ++ l2).drop k = l2 := by
  rw [← h, List.drop_left]

/-- A list of length `a + b` splits into its first `a` and its last `b` elements. -/
theorem split_length {α : Type} (l : List α) (a b : Nat) (h : l.length = a + b) :
    ∃ l1 l2, l = l1 ++ l2 ∧ l1.length = a ∧ l2.length = b :=
  ⟨l.take a, l.drop a, (List.take_append_drop a l).symm, by simp; omega, by simp; omega⟩

end Go

namespace shellns

open Go

theorem foldl_size (list : List Item) (acc : Nat) :
    list.foldl (fun total item => total + 2 + item.length) acc = acc + itemsSize list := by
  induction list generalizing acc with
  | nil => simp [itemsSize]
  | cons item rest ih =>
    simp only [List.foldl_cons, ih, itemsSize, List.map_cons, List.sum_cons]
    omega

theorem Size_eq (list : List Item) : List.Size list = 2 + itemsSize list + 2 := by
  simp only [List.Size, foldl_size]

theorem itemsEncoding_length (list : List Item) :
    (itemsEncoding list).length = itemsSize list := by
  induction list with
  | nil => rfl
  | cons item rest ih =>
    simp only [itemsEncoding, itemsSize, List.map_cons, List.flatten_cons, List.length_append,
      List.sum_cons, le16, List.length_cons, List.length_nil] at ih ⊢
    omega

theorem length_le_itemsSize (list : List Item) : 2 * list.length ≤ itemsSize list := by
  induction list with
  | nil => simp [itemsSize]
  | cons item rest ih =>
    simp only [itemsSize, List.map_cons, List.sum_cons, List.length_cons] at ih ⊢
    omega

theorem item_length_le_itemsSize (list : List Item) (item : Item) (h : item ∈ list) :
    2 + item.length ≤ itemsSize list := by
  induction list with
  | nil => cases h
  | cons x rest ih =>
    simp only [itemsSize, List.map_cons, List.sum_cons] at ih ⊢
    rcases List.mem_cons.mp h with rfl | h'
    · omega
    · have := ih h'; omega

theorem le16_eq (v : Nat) (h : v < 65536) : [uint16 v % 256, uint16 v / 256 % 256] = le16 v := by
  have h1 : uint16 v = v := Nat.mod_eq_of_lt h
  have h2 : v / 256 % 256 = v / 256 := Nat.mod_eq_of_lt (by omega)
  rw [h1, h2, le16]

/-- The item loop, started at the cursor `pre.length` with exactly `itemsSize list`
bytes `mid` to fill, replaces them by the item entries. -/
theorem marshalItems_append (list : List Item) :
    ∀ (pre mid post : List Byte), mid.length = itemsSize list → itemsSize list < 65536 →
      List.marshalItems list (pre ++ mid ++ post) pre.length
        = some (pre ++ itemsEncoding list ++ post, pre.length + itemsSize list) := by
  induction list with
  | nil =>
    intro pre mid post hmid _
    have : mid = [] := List.length_eq_zero.mp (by simpa [itemsSize] using hmid)
    subst this
    simp [List.marshalItems, itemsEncoding, itemsSize]
  | cons item rest ih =>
    intro pre mid post hmid hsmall
    have hsz : itemsSize (item :: rest) = 2 + item.length + itemsSize rest := by
      simp [itemsSize, Nat.add_assoc]
    rw [hsz] at hmid hsmall
    obtain ⟨m12, m3, rfl, hm12, hm3⟩ := split_length mid (2 + item.length) (itemsSize rest) hmid
    obtain ⟨m1, m2, rfl, hm1, hm2⟩ := split_length m12 2 item.length hm12
    have e1 : pre ++ (m1 ++ m2 ++ m3) ++ post = pre ++ m1 ++ (m2 ++ m3 ++ post) := by
      simp only [List.append_assoc]
    have hput := putUint16At_append pre m1 (m2 ++ m3 ++ post) (uint16 item.length) hm1
    rw [le16_eq item.length (by omega)] at hput
    have e2 : pre ++ le16 item.length ++ (m2 ++ m3 ++ post)
        = (pre ++ le16 item.length) ++ m2 ++ (m3 ++ post) := by
      simp only [List.append_assoc]
    have hl : (pre ++ le16 item.length).length = pre.length + 2 := by simp [le16]
    have hcopy := copyFrom_append (pre ++ le16 item.length) m2 (m3 ++ post) item hm2
    rw [hl] at hcopy
    have e3 : pre ++ le16 item.length ++ item ++ (m3 ++ post)
        = (pre ++ le16 item.length ++ item) ++ m3 ++ post := by
      simp only [List.append_assoc]
    have hl3 : (pre ++ le16 item.length ++ item).length = pre.length + 2 + item.length := by
      simp only [List.length_append, le16, List.length_cons, List.length_nil]
    have hrec := ih (pre ++ le16 item.length ++ item) m3 post hm3 (by omega)
    rw [hl3] at hrec
    rw [List.marshalItems, e1, hput]
    simp only []
    rw [e2, hcopy]
    simp only []
    rw [e3, hrec, hsz]
    simp only [itemsEncoding, List.map_cons, List.flatten_cons, List.append_assoc, Nat.add_assoc]

/-- The whole of `MarshalBinaryTo` on a destination that is large enough. -/
theorem MarshalBinaryTo_eq (list : List Item) (data : List Byte)
    (hsize : List.Size list ≤ 65535) (hlen : List.Size list ≤ data.length) :
    List.MarshalBinaryTo list data
      = some { data := wireEncoding list ++ data.drop (List.Size list), err := none } := by
  have hS := Size_eq list
  have hcount := length_le_itemsSize list
  obtain ⟨front, post, hdata, hfront, -⟩ :=
    split_length data (List.Size list) (data.length - List.Size list) (by omega)
  have hpost : data.drop (List.Size list) = post := by
    rw [hdata, ← hfront, List.drop_left]
  obtain ⟨hm, t, rfl, hhm, ht⟩ := split_length front (2 + itemsSize list) 2 (by omega)
  obtain ⟨h0, mid, rfl, hh0, hmid⟩ := split_length hm 2 (itemsSize list) hhm
  have hput0 := putUint16At_append [] h0 (mid ++ t ++ post) (uint16 list.length) hh0
  rw [le16_eq list.length (by omega)] at hput0
  simp only [List.nil_append, List.length_nil] at hput0
  have hl0 : (le16 list.length).length = 2 := rfl
  have hitems := marshalItems_append list (le16 list.length) mid (t ++ post) hmid (by omega)
  rw [hl0] at hitems
  have hl1 : (le16 list.length ++ itemsEncoding list).length = 2 + itemsSize list := by
    rw [List.length_append, hl0, itemsEncoding_length]
  have hput1 := putUint16At_append (le16 list.length ++ itemsEncoding list) t post 0 ht
  rw [hl1] at hput1
  have e0 : data = h0 ++ (mid ++ t ++ post) := by rw [hdata]; simp only [List.append_assoc]
  have e1 : le16 list.length ++ (mid ++ t ++ post) = le16 list.length ++ mid ++ (t ++ post) := by
    simp only [List.append_assoc]
  have e2 : le16 list.length ++ itemsEncoding list ++ (t ++ post)
      = le16 list.length ++ itemsEncoding list ++ t ++ post := by
    simp only [List.append_assoc]
  have hnot1 : ¬ List.Size list > 65535 := by omega
  have hnot2 : ¬ data.length < List.Size list := by omega
  rw [List.MarshalBinaryTo]
  simp only [hnot1, hnot2, if_false]
  rw [hpost]
  conv_lhs => rw [e0]
  rw [hput0]
  simp only []
  rw [e1, hitems]
  simp only []
  rw [e2, hput1]
  simp only [wireEncoding, itemsEncoding, Nat.zero_mod, Nat.zero_div]

end shellns

namespace shellns

open Go

theorem wireEncoding_length (list : List Item) :
    (wireEncoding list).length = List.Size list := by
  have h := itemsEncoding_length list
  rw [itemsEncoding] at h
  have h2 : ∀ v, (le16 v).length = 2 := fun _ => rfl
  simp only [wireEncoding, List.length_append, h, h2, Size_eq, List.length_cons,
    List.length_nil]

theorem MarshalBinaryTo_of_size_gt (list : List Item) (data : List Byte)
    (hsize : List.Size list > 65535) :
    List.MarshalBinaryTo list data
      = some { data := data, err := some (MarshalError.exceedsLimit (List.Size list)) } := by
  simp only [List.MarshalBinaryTo, hsize, if_true]

theorem Size_replicate (k : Nat) (item : Item) :
    List.Size (List.replicate k item) = 2 + k * (2 + item.length) + 2 := by
  rw [Size_eq, itemsSize, List.map_replicate, List.sum_replicate, smul_eq_mul]

/-- C1: when `Size(list) ≤ 65535` and the destination holds at least `Size(list)`
bytes, `MarshalBinaryTo` returns without a panic and without an error, the first
`Size(list)` bytes of the destination are the wire encoding (count, then each item
behind its length, then 00 00, all 16 bit fields little-endian), and the rest of
the destination keeps its bytes; for `[[0x01,0x02], []]` the bytes are
`02 00 02 00 01 02 00 00 00 00`. -/
theorem C1_marshalBinaryTo_wire_encoding (list : List Item) (data : List Byte)
    (hsize : List.Size list ≤ 65535) (hlen : List.Size list ≤ data.length) :
    (∃ res, List.MarshalBinaryTo list data = some res ∧ res.err = none
        ∧ res.data.take (List.Size list) = wireEncoding list
        ∧ res.data.drop (List.Size list) = data.drop (List.Size list)
        ∧ res.data.length = data.length)
    ∧ List.MarshalBinaryTo [[1, 2], []] (List.replicate 10 0)
        = some { data := [2, 0, 2, 0, 1, 2, 0, 0, 0, 0], err := none } := by
  refine ⟨⟨_, MarshalBinaryTo_eq list data hsize hlen, rfl, ?_, ?_, ?_⟩, by decide⟩
  · show (wireEncoding list ++ data.drop (List.Size list)).take (List.Size list) = _
    rw [← wireEncoding_length, List.take_left]
  · show (wireEncoding list ++ data.drop (List.Size list)).drop (List.Size list) = _
    rw [← wireEncoding_length list, List.drop_left, wireEncoding_length list]
  · show (wireEncoding list ++ data.drop (List.Size list)).length = _
    rw [List.length_append, wireEncoding_length, List.length_drop]
    omega

theorem C1_marshalBinaryTo_wire_encoding_witness :
    (List.Size [[3, 4, 5], [], [6]] ≤ 65535
      ∧ List.Size [[3, 4, 5], [], [6]] ≤ (List.replicate 14 255).length)
    ∧ ((∃ res, List.MarshalBinaryTo [[3, 4, 5], [], [6]] (List.replicate 14 255) = some res
          ∧ res.err = none
          ∧ res.data.take (List.Size [[3, 4, 5], [], [6]]) = wireEncoding [[3, 4, 5], [], [6]]
          ∧ res.data.drop (List.Size [[3, 4, 5], [], [6]])
              = (List.replicate 14 255).drop (List.Size [[3, 4, 5], [], [6]])
          ∧ res.data.length = (List.replicate 14 255).length)
      ∧ List.MarshalBinaryTo [[1, 2], []] (List.replicate 10 0)
          = some { data := [2, 0, 2, 0, 1, 2, 0, 0, 0, 0], err := none }) :=
  ⟨by decide,
    C1_marshalBinaryTo_wire_encoding [[3, 4, 5], [], [6]] (List.replicate 14 255)
      (by decide) (by decide)⟩

/-- C2: `Size(list)` is 2, plus 2 and the item's length for every item, plus 2; the
empty list has size 4 and `[[0x01,0x02], []]` has size 10. -/
theorem C2_size_formula (list : List Item) :
    List.Size list = 2 + (list.map (fun item => 2 + item.length)).sum + 2
    ∧ List.Size [] = 4
    ∧ List.Size [[1, 2], []] = 10 :=
  ⟨Size_eq list, by decide, by decide⟩

/-- C3: when `Size(list) > 65535`, `MarshalBinaryTo` returns the size-limit error,
whatever the length of the destination, and the destination keeps every byte. -/
theorem C3_marshalBinaryTo_size_limit (list : List Item) (data : List Byte)
    (hsize : List.Size list > 65535) :
    List.MarshalBinaryTo list data
      = some { data := data, err := some (MarshalError.exceedsLimit (List.Size list)) } :=
  MarshalBinaryTo_of_size_gt list data hsize

theorem C3_marshalBinaryTo_size_limit_witness :
    List.Size (List.replicate 65534 [1]) > 65535
    ∧ List.MarshalBinaryTo (List.replicate 65534 [1]) [170, 170, 170]
        = some { data := [170, 170, 170],
                 err := some (MarshalError.exceedsLimit (List.Size (List.replicate 65534 [1]))) } :=
  ⟨by rw [Size_replicate]; decide,
    C3_marshalBinaryTo_size_limit (List.replicate 65534 [1]) [170, 170, 170]
      (by rw [Size_replicate]; decide)⟩

/-- C4: when `Size(list) ≤ 65535` and the destination is shorter than `Size(list)`,
`MarshalBinaryTo` returns the capacity error and the destination keeps every
byte. -/
theorem C4_marshalBinaryTo_capacity (list : List Item) (data : List Byte)
    (hsize : List.Size list ≤ 65535) (hlen : data.length < List.Size list) :
    List.MarshalBinaryTo list data
      = some { data := data,
               err := some (MarshalError.bufferTooSmall (List.Size list) data.length) } := by
  have hnot : ¬ List.Size list > 65535 := by omega
  simp only [List.MarshalBinaryTo, hnot, hlen, if_true, if_false]

theorem C4_marshalBinaryTo_capacity_witness :
    (List.Size [[1, 2], []] ≤ 65535 ∧ (List.replicate 9 170).length < List.Size [[1, 2], []])
    ∧ List.MarshalBinaryTo [[1, 2], []] (List.replicate 9 170)
        = some { data := List.replicate 9 170,
                 err := some (MarshalError.bufferTooSmall (List.Size [[1, 2], []])
                   (List.replicate 9 170).length) } :=
  ⟨by decide, C4_marshalBinaryTo_capacity [[1, 2], []] (List.replicate 9 170)
    (by decide) (by decide)⟩

/-- C5: `MarshalBinary` returns a slice of exactly `Size(list)` bytes together with
the result of `MarshalBinaryTo` on a fresh slice of that length; the error is set
exactly when `Size(list) > 65535`, and without an error the whole slice is the wire
encoding. -/
theorem C5_marshalBinary (list : List Item) :
    ∃ res, List.MarshalBinary list = some res
      ∧ List.MarshalBinary list
          = List.MarshalBinaryTo list (List.replicate (List.Size list) 0)
      ∧ res.data.length = List.Size list
      ∧ (res.err ≠ none ↔ List.Size list > 65535)
      ∧ (res.err = none → res.data = wireEncoding list) := by
  by_cases hsize : List.Size list > 65535
  · refine ⟨_, MarshalBinaryTo_of_size_gt list _ hsize, rfl, ?_, ?_, ?_⟩
    · simp
    · simp [hsize]
    · intro h; cases h
  · have hle : List.Size list ≤ 65535 := by omega
    have h := MarshalBinaryTo_eq list (List.replicate (List.Size list) 0) hle (by simp)
    refine ⟨_, h, rfl, ?_, ?_, ?_⟩
    · simp [wireEncoding_length]
    · simp [hsize]
    · intro _
      simp

/-- C6 (the code at the list `[[0x01,0x02], []]`): `MarshalBinaryTo` succeeds and
writes the list header `02 00`, the number of items, where the size in bytes of the
ID list that follows the header is `Size - 2 = 8`, and the header `02 00` for the
first item, the length of the item, where the size of the item entry including its
header is 4. -/
theorem C6_headers_hold_counts_not_sizes :
    (∃ res, List.MarshalBinaryTo [[1, 2], []] (List.replicate 10 0) = some res
      ∧ res.err = none
      ∧ res.data.take 2 = [2, 0]
      ∧ res.data.take 2 ≠ le16 (List.Size [[1, 2], []] - 2)
      ∧ (res.data.drop 2).take 2 = [2, 0]
      ∧ (res.data.drop 2).take 2 ≠ le16 (([1, 2] : List Byte).length + 2))
    ∧ le16 (List.Size [[1, 2], []] - 2) = [8, 0]
    ∧ le16 (([1, 2] : List Byte).length + 2) = [4, 0] :=
  ⟨⟨{ data := [2, 0, 2, 0, 1, 2, 0, 0, 0, 0], err := none }, by decide, rfl, by decide,
    by decide, by decide, by decide⟩, by decide, by decide⟩

end shellns


namespace Go

theorem wrapInt64_of_range (x : Int) (h1 : -9223372036854775808 ≤ x)
    (h2 : x < 9223372036854775808) : wrapInt64 x = x := by
  unfold wrapInt64
  omega

theorem overlay_getElem? (d inp : List Byte) (off i : Nat) (h : off + inp.length ≤ d.length) :
    (d.take off ++ inp ++ d.drop (off + inp.length))[i]?
      = if off ≤ i ∧ i < off + inp.length then inp[i - off]? else d[i]? := by
  have hl : (d.take off).length = off := by rw [List.length_take]; omega
  rw [List.append_assoc, List.getElem?_append, hl]
  by_cases h1 : i < off
  · have : ¬ (off ≤ i ∧ i < off + inp.length) := by omega
    rw [if_pos h1, if_neg this, List.getElem?_take_of_lt h1]
  · rw [if_neg h1, List.getElem?_append]
    by_cases h2 : i - off < inp.length
    · have : off ≤ i ∧ i < off + inp.length := by omega
      rw [if_pos h2, if_pos this]
    · have : ¬ (off ≤ i ∧ i < off + inp.length) := by omega
      rw [if_neg h2, if_neg this, List.getElem?_drop]
      congr 1
      omega

theorem copyFrom_fits (d inp : List Byte) (off : Nat) (h : off + inp.length ≤ d.length) :
    copyFrom d off inp
      = some (d.take off ++ inp ++ d.drop (off + inp.length), inp.length) := by
  have h1 : off ≤ d.length := by omega
  have h2 : min (d.length - off) inp.length = inp.length := by omega
  simp only [copyFrom, h1, if_true, h2, List.take_length]

theorem grow_getElem? (d : List Byte) (k i : Nat) :
    (grow d k)[i]? = if i < d.length then d[i]? else if i < d.length + k then some 0 else none := by
  rw [grow, List.getElem?_append]
  by_cases h1 : i < d.length
  · rw [if_pos h1, if_pos h1]
  · rw [if_neg h1, if_neg h1, List.getElem?_replicate]
    by_cases h2 : i - d.length < k
    · rw [if_pos h2, if_pos (by omega)]
    · rw [if_neg h2, if_neg (by omega)]

end Go

namespace shobjidl

open Go

theorem take_maxChunk_length (buf : List Byte) :
    (buf.take maxChunk).length = min buf.length 4096 := by
  rw [List.length_take, maxChunk, Nat.min_comm]

theorem uint32_chunk (k : Nat) (h : k ≤ 4096) : uint32 k = k := by
  unfold uint32
  omega

/-- The buffer `write` copies into: `data`, grown with zeros up to `off + k` when
it is shorter. -/
theorem write_data_eq (data inp : List Byte) (off : Nat) (data1 : List Byte)
    (hd1 : data1 = if data.length < off + inp.length
              then grow data (off + inp.length - data.length) else data) :
    data1.take off ++ inp ++ data1.drop (off + inp.length)
      = (List.range (max data.length (off + inp.length))).map (fun i =>
          if off ≤ i ∧ i < off + inp.length then (inp[i - off]?).getD 0
          else if i < data.length then (data[i]?).getD 0
          else 0) := by
  have hfits : off + inp.length ≤ data1.length := by
    rw [hd1]; split
    · simp only [grow, List.length_append, List.length_replicate]; omega
    · omega
  have hlen1 : data1.length = max data.length (off + inp.length) := by
    rw [hd1]; split
    · simp only [grow, List.length_append, List.length_replicate]; omega
    · omega
  apply List.ext_getElem?
  intro i
  rw [overlay_getElem? data1 inp off i hfits, List.getElem?_map]
  by_cases hi : i < max data.length (off + inp.length)
  · rw [List.getElem?_range hi, Option.map_some']
    by_cases hin : off ≤ i ∧ i < off + inp.length
    · rw [if_pos hin, if_pos hin, List.getElem?_eq_getElem (by omega)]
      rfl
    · rw [if_neg hin, if_neg hin]
      by_cases hold : i < data.length
      · rw [if_pos hold, List.getElem?_eq_getElem hold]
        have : data1[i]? = data[i]? := by
          rw [hd1]; split
          · rw [grow_getElem?, if_pos hold]
          · rfl
        rw [this, List.getElem?_eq_getElem hold]
        rfl
      · rw [if_neg hold]
        have hlt : data.length < off + inp.length := by omega
        rw [hd1, if_pos hlt, grow_getElem?, if_neg hold, if_pos (by omega)]
  · have hnone : (List.range (max data.length (off + inp.length)))[i]? = none :=
      List.getElem?_eq_none (by rw [List.length_range]; omega)
    have hnot : ¬ (off ≤ i ∧ i < off + inp.length) := by omega
    rw [hnone, if_neg hnot, Option.map_none']
    exact List.getElem?_eq_none (by omega)

/-- The buffer `write` copies into: `data`, grown with zeros up to `off + k` when it
is shorter (the variable `b.data` after the `if` statement). -/
theorem write_overlay (data buf : List Byte) (off : Nat) (n : Option Nat)
    (hfit : (off : Int) + ((min buf.length 4096 : Nat) : Int) < 9223372036854775808) :
    StreamBuffer.write { data := data, offset := (off : Int) } buf n
      = some { status := 0
               b := { data :=
                        (if data.length < off + (buf.take maxChunk).length
                          then grow data (off + (buf.take maxChunk).length - data.length)
                          else data).take off
                        ++ buf.take maxChunk
                        ++ (if data.length < off + (buf.take maxChunk).length
                          then grow data (off + (buf.take maxChunk).length - data.length)
                          else data).drop (off + (buf.take maxChunk).length)
                      offset := (off : Int) + ((buf.take maxChunk).length : Int) }
               buf := buf
               n := n.map (fun _ => (buf.take maxChunk).length) } := by
  have hk := take_maxChunk_length buf
  have hneeded : wrapInt64 ((off : Int) + ((buf.take maxChunk).length : Int))
      = ((off + (buf.take maxChunk).length : Nat) : Int) := by
    rw [wrapInt64_of_range _ (by omega) (by rw [hk]; omega)]
    push_cast; rfl
  have hnotneg : ¬ ((off : Int) < 0) := by omega
  have hfits : off + (buf.take maxChunk).length
      ≤ (if data.length < off + (buf.take maxChunk).length
          then grow data (off + (buf.take maxChunk).length - data.length) else data).length := by
    split
    · simp only [grow, List.length_append, List.length_replicate]; omega
    · omega
  have hcopy := copyFrom_fits _ (buf.take maxChunk) off hfits
  have hgrow : (((off + (buf.take maxChunk).length : Nat) : Int) - (data.length : Int)).toNat
      = off + (buf.take maxChunk).length - data.length := by omega
  have hcond : ((data.length : Int) < ((off + (buf.take maxChunk).length : Nat) : Int))
      ↔ data.length < off + (buf.take maxChunk).length := by omega
  have hu : uint32 (buf.take maxChunk).length = (buf.take maxChunk).length :=
    uint32_chunk _ (by rw [hk]; exact Nat.min_le_right _ _)
  simp only [StreamBuffer.write, hneeded, hnotneg, if_false, hgrow, hcond, Int.toNat_ofNat,
    hcopy, hu]

/-- The function `write` agrees with its reference definition whenever the cursor
is not negative and `offset + k` is within `int`. -/
theorem write_eq_writeSpec (b : StreamBuffer) (buf : List Byte) (n : Option Nat)
    (h0 : 0 ≤ b.offset)
    (hfit : b.offset + ((min buf.length 4096 : Nat) : Int) < 9223372036854775808) :
    StreamBuffer.write b buf n = some (writeSpec b buf n) := by
  obtain ⟨data, offset⟩ := b
  obtain ⟨off, rfl⟩ := Int.eq_ofNat_of_zero_le h0
  have hk := take_maxChunk_length buf
  have hd1 := write_data_eq data (buf.take maxChunk) off _ rfl
  rw [write_overlay data buf off n hfit, hd1]
  simp only [writeSpec, Int.toNat_ofNat, hk]
  have hmap : ∀ i ∈ List.range (max data.length (off + min buf.length 4096)),
      (if off ≤ i ∧ i < off + min buf.length 4096 then ((buf.take maxChunk)[i - off]?).getD 0
        else if i < data.length then (data[i]?).getD 0 else 0)
      = (if off ≤ i ∧ i < off + min buf.length 4096 then (buf[i - off]?).getD 0
        else if i < data.length then (data[i]?).getD 0 else 0) := by
    intro i _
    by_cases hin : off ≤ i ∧ i < off + min buf.length 4096
    · rw [if_pos hin, if_pos hin, List.getElem?_take_of_lt (by rw [maxChunk]; omega)]
    · rw [if_neg hin, if_neg hin]
  rw [List.map_congr_left hmap]

theorem writeSpec_length (b : StreamBuffer) (buf : List Byte) (n : Option Nat) :
    (writeSpec b buf n).b.data.length
      = max b.data.length (b.offset.toNat + min buf.length 4096) := by
  simp only [writeSpec, List.length_map, List.length_range]

/-- A `write` into the fresh buffer with the cursor at 100. -/
theorem write_at_100 (data : List Byte) (n : Option Nat) :
    StreamBuffer.write { data := [], offset := 100 } data n
      = some { status := 0
               b := { data := List.replicate 100 0 ++ data.take 4096
                      offset := 100 + ((min data.length 4096 : Nat) : Int) }
               buf := data
               n := n.map (fun _ => min data.length 4096) } := by
  have hk := take_maxChunk_length data
  have h := write_overlay [] data 100 n (by omega)
  have hlt : ([] : List Byte).length < 100 + (data.take maxChunk).length := by
    simp only [List.length_nil]; omega
  rw [if_pos hlt] at h
  simp only [grow, List.nil_append, List.length_nil, Nat.sub_zero, List.take_replicate,
    List.drop_replicate, Nat.add_sub_cancel_left, Nat.sub_self, List.replicate_zero,
    List.append_nil, hk] at h
  have hmin : min 100 (100 + min data.length 4096) = 100 := by omega
  rw [hmin] at h
  exact h

theorem seek_fresh_100 (pos : Option Nat) :
    StreamBuffer.seek NewStreamBuffer 100 SeekStart pos
      = { status := 0, b := { data := [], offset := 100 }, pos := pos.map (fun _ => 100) } := by
  cases pos <;> rfl

theorem drop_take_append_drop {α : Type} (l : List α) (k m : Nat) (h : k ≤ m) :
    (l.take m).drop k ++ l.drop m = l.drop k := by
  apply List.ext_getElem?
  intro i
  rw [List.getElem?_append, List.getElem?_drop, List.getElem?_drop, List.getElem?_drop,
    List.length_drop, List.length_take]
  by_cases h1 : i < min m l.length - k
  · rw [if_pos h1, List.getElem?_take_of_lt (by omega)]
  · rw [if_neg h1]
    by_cases h2 : l.length ≤ k + i
    · rw [List.getElem?_eq_none h2, List.getElem?_eq_none (by omega)]
    · congr 1
      omega

/-- The function `read` before the end of the data. -/
theorem read_before_end (data buf : List Byte) (off : Nat) (n : Option Nat)
    (hlt : off < data.length) :
    StreamBuffer.read { data := data, offset := (off : Int) } buf n
      = some { status := 0
               b := { data := data
                      offset := (off : Int)
                        + ((min (min buf.length 4096) (data.length - off) : Nat) : Int) }
               buf := (data.drop off).take (min (min buf.length 4096) (data.length - off))
                        ++ buf.drop (min (min buf.length 4096) (data.length - off))
               n := n.map (fun _ => min (min buf.length 4096) (data.length - off)) } := by
  have hk := take_maxChunk_length buf
  have hnot : ¬ ((off : Int) ≥ (data.length : Int)) := by omega
  have hslice : sliceFrom data (off : Int) = some (data.drop off) := by
    have : (0 : Int) ≤ (off : Int) ∧ (off : Int) ≤ (data.length : Int) := by omega
    simp only [sliceFrom, this, and_self, if_true, Int.toNat_ofNat]
  have hu : uint32 (min (min buf.length 4096) (data.length - off))
      = min (min buf.length 4096) (data.length - off) := uint32_chunk _ (by omega)
  have hdrop := drop_take_append_drop buf (min (min buf.length 4096) (data.length - off))
    maxChunk (by rw [maxChunk]; omega)
  simp only [StreamBuffer.read, hnot, if_false, hslice, copy, hk, List.length_drop, hu,
    List.append_assoc, hdrop]

/-- C8: in a state with `0 ≤ offset < len(buffer)`, a `read` into a destination of
`r` bytes returns status 0; with `k = min(r, 4096, len(buffer) - offset)` it stores
`buffer[offset .. offset + k)` in the first `k` bytes of the destination and leaves
the other bytes of the destination alone, reports `k`, advances the offset by `k`
and leaves the buffer unchanged. -/
theorem C8_read_copies_chunk (b : StreamBuffer) (buf : List Byte) (n : Option Nat)
    (h0 : 0 ≤ b.offset) (hlt : b.offset < (b.data.length : Int)) :
    ∃ res, StreamBuffer.read b buf n = some res
      ∧ res.status = 0
      ∧ res.buf.take (readCount b buf.length)
          = (b.data.drop b.offset.toNat).take (readCount b buf.length)
      ∧ (res.buf.take (readCount b buf.length)).length = readCount b buf.length
      ∧ res.buf.drop (readCount b buf.length) = buf.drop (readCount b buf.length)
      ∧ res.buf.length = buf.length
      ∧ res.n = n.map (fun _ => readCount b buf.length)
      ∧ res.b.offset = b.offset + (readCount b buf.length : Int)
      ∧ res.b.data = b.data := by
  obtain ⟨data, offset⟩ := b
  obtain ⟨off, rfl⟩ := Int.eq_ofNat_of_zero_le h0
  have hlt2 : off < data.length := by simpa using hlt
  have hk : readCount { data := data, offset := (off : Int) } buf.length
      = min (min buf.length 4096) (data.length - off) := by
    simp only [readCount, Int.toNat_ofNat]
  have hsrc : ((data.drop off).take (min (min buf.length 4096) (data.length - off))).length
      = min (min buf.length 4096) (data.length - off) := by
    rw [List.length_take, List.length_drop]; omega
  refine ⟨_, read_before_end data buf off n hlt2, rfl, ?_, ?_, ?_, ?_, ?_, ?_, rfl⟩
  · simp only [hk, Int.toNat_ofNat]
    exact take_append_of_length _ _ _ hsrc
  · simp only [hk]
    rw [List.length_take, List.length_append, hsrc, List.length_drop]
    omega
  · simp only [hk]
    exact drop_append_of_length _ _ _ hsrc
  · simp only [List.length_append, hsrc, List.length_drop]
    omega
  · simp only [hk]
  · simp only [hk]

theorem C8_read_copies_chunk_witness :
    ((0 : Int) ≤ (StreamBuffer.mk [5, 6, 7, 8] 1).offset
      ∧ (StreamBuffer.mk [5, 6, 7, 8] 1).offset
          < ((StreamBuffer.mk [5, 6, 7, 8] 1).data.length : Int))
    ∧ ∃ res, StreamBuffer.read (StreamBuffer.mk [5, 6, 7, 8] 1) [1, 2] (some 9) = some res
      ∧ res.status = 0
      ∧ res.buf.take (readCount (StreamBuffer.mk [5, 6, 7, 8] 1) [1, 2].length)
          = ((StreamBuffer.mk [5, 6, 7, 8] 1).data.drop
                (StreamBuffer.mk [5, 6, 7, 8] 1).offset.toNat).take
              (readCount (StreamBuffer.mk [5, 6, 7, 8] 1) [1, 2].length)
      ∧ (res.buf.take (readCount (StreamBuffer.mk [5, 6, 7, 8] 1) [1, 2].length)).length
          = readCount (StreamBuffer.mk [5, 6, 7, 8] 1) [1, 2].length
      ∧ res.buf.drop (readCount (StreamBuffer.mk [5, 6, 7, 8] 1) [1, 2].length)
          = [1, 2].drop (readCount (StreamBuffer.mk [5, 6, 7, 8] 1) [1, 2].length)
      ∧ res.buf.length = [1, 2].length
      ∧ res.n = (some 9).map (fun _ => readCount (StreamBuffer.mk [5, 6, 7, 8] 1) [1, 2].length)
      ∧ res.b.offset = (StreamBuffer.mk [5, 6, 7, 8] 1).offset
          + (readCount (StreamBuffer.mk [5, 6, 7, 8] 1) [1, 2].length : Int)
      ∧ res.b.data = (StreamBuffer.mk [5, 6, 7, 8] 1).data :=
  ⟨by decide, C8_read_copies_chunk (StreamBuffer.mk [5, 6, 7, 8] 1) [1, 2] (some 9)
    (by decide) (by decide)⟩

/-- C9: in a state with `offset ≥ len(buffer)`, a `read` of any requested length
returns status 0, reports 0 bytes and leaves the buffer, the offset and the
destination unchanged; the state `NewStreamBuffer` is such a state. -/
theorem C9_read_at_end (b : StreamBuffer) (buf : List Byte) (n : Option Nat)
    (hend : b.offset ≥ (b.data.length : Int)) :
    StreamBuffer.read b buf n
        = some { status := 0, b := b, buf := buf, n := n.map (fun _ => 0) }
    ∧ StreamBuffer.read NewStreamBuffer buf n
        = some { status := 0, b := NewStreamBuffer, buf := buf, n := n.map (fun _ => 0) } := by
  constructor
  · simp only [StreamBuffer.read, hend, if_true]
  · have h : NewStreamBuffer.offset ≥ (NewStreamBuffer.data.length : Int) := by decide
    simp only [StreamBuffer.read, h, if_true]

theorem C9_read_at_end_witness :
    (StreamBuffer.mk [5, 6] 7).offset ≥ ((StreamBuffer.mk [5, 6] 7).data.length : Int)
    ∧ (StreamBuffer.read (StreamBuffer.mk [5, 6] 7) [1, 2, 3] (some 9)
          = some { status := 0, b := StreamBuffer.mk [5, 6] 7, buf := [1, 2, 3],
                   n := (some 9).map (fun _ => 0) }
      ∧ StreamBuffer.read NewStreamBuffer [1, 2, 3] (some 9)
          = some { status := 0, b := NewStreamBuffer, buf := [1, 2, 3],
                   n := (some 9).map (fun _ => 0) }) :=
  ⟨by decide, C9_read_at_end (StreamBuffer.mk [5, 6] 7) [1, 2, 3] (some 9) (by decide)⟩

/-- C10 (as stated, at 4097 bytes of data): after `seek(100, FromStart)` on a fresh
stream, a `write` of 4097 bytes leaves a buffer of 4196 bytes, fewer than
`100 + 4097`. -/
theorem C10_write_at_100_counterexample :
    ∃ res, StreamBuffer.write (StreamBuffer.seek NewStreamBuffer 100 SeekStart none).b
              (List.replicate 4097 1) none = some res
      ∧ res.b.data.length = 4196
      ∧ ¬ (100 + (List.replicate 4097 1).length ≤ res.b.data.length) := by
  rw [seek_fresh_100]
  refine ⟨_, write_at_100 (List.replicate 4097 1) none, ?_, ?_⟩
  · simp only [List.length_append, List.length_replicate, List.length_take]; decide
  · simp only [List.length_append, List.length_replicate, List.length_take]; decide

/-- C10 (amended): after `seek(100, FromStart)` on a fresh stream, a `write` of
`data` returns status 0 and leaves the buffer made of 100 zero bytes followed by
the first `min(len(data), 4096)` bytes of `data`: its length is
`100 + min(len(data), 4096)`, and its bytes from 100 on are `data` itself whenever
`len(data) ≤ 4096`. -/
theorem C10_write_at_100 (data : List Byte) (n pos : Option Nat) :
    (StreamBuffer.seek NewStreamBuffer 100 SeekStart pos).status = 0
    ∧ ∃ res, StreamBuffer.write (StreamBuffer.seek NewStreamBuffer 100 SeekStart pos).b data n
              = some res
      ∧ res.status = 0
      ∧ res.b.data = List.replicate 100 0 ++ data.take 4096
      ∧ res.b.data.length = 100 + min data.length 4096
      ∧ res.b.data.take 100 = List.replicate 100 0
      ∧ res.b.data.drop 100 = data.take (min data.length 4096) := by
  rw [seek_fresh_100]
  refine ⟨rfl, _, write_at_100 data n, rfl, rfl, ?_, ?_, ?_⟩
  · simp only [List.length_append, List.length_replicate, List.length_take]; omega
  · exact take_append_of_length _ _ _ (List.length_replicate _ _)
  · show (List.replicate 100 0 ++ data.take 4096).drop 100 = _
    rw [drop_append_of_length _ _ _ (List.length_replicate _ _)]
    by_cases hl : data.length ≤ 4096
    · rw [Nat.min_eq_left hl, List.take_of_length_le hl, List.take_length]
    · rw [Nat.min_eq_right (by omega)]

end shobjidl

namespace shobjidl

open Go

theorem uint64_of_range (x : Int) (h0 : 0 ≤ x) (h1 : x < 9223372036854775808) :
    uint64 x = x.toNat := by
  unfold uint64
  rw [Int.emod_eq_of_lt h0 (by omega)]

/-- The three defined origins and their bases. -/
theorem seekBase_some (b : StreamBuffer) (origin : Nat) (base : Int)
    (h : seekBase b origin = some base) :
    (origin = 0 ∧ base = 0) ∨ (origin = 1 ∧ base = b.offset)
      ∨ (origin = 2 ∧ base = (b.data.length : Int)) := by
  unfold seekBase at h
  by_cases h0 : origin = 0
  · rw [if_pos h0] at h
    exact Or.inl ⟨h0, (Option.some.inj h).symm⟩
  · rw [if_neg h0] at h
    by_cases h1 : origin = 1
    · rw [if_pos h1] at h
      exact Or.inr (Or.inl ⟨h1, (Option.some.inj h).symm⟩)
    · rw [if_neg h1] at h
      by_cases h2 : origin = 2
      · rw [if_pos h2] at h
        exact Or.inr (Or.inr ⟨h2, (Option.some.inj h).symm⟩)
      · rw [if_neg h2] at h
        cases h

theorem seekBase_none (b : StreamBuffer) (origin : Nat) (h : seekBase b origin = none) :
    origin ≠ 0 ∧ origin ≠ 1 ∧ origin ≠ 2 := by
  unfold seekBase at h
  by_cases h0 : origin = 0
  · rw [if_pos h0] at h; cases h
  · rw [if_neg h0] at h
    by_cases h1 : origin = 1
    · rw [if_pos h1] at h; cases h
    · rw [if_neg h1] at h
      by_cases h2 : origin = 2
      · rw [if_pos h2] at h; cases h
      · exact ⟨h0, h1, h2⟩

/-- The target `off` that `seek` computes for a defined origin, when the sum
`base + d` is within `int`. -/
theorem seek_target (b : StreamBuffer) (d : Int) (origin : Nat) (pos : Option Nat)
    (base : Int) (hbase : seekBase b origin = some base)
    (hd1 : -9223372036854775808 ≤ d) (hd2 : d < 9223372036854775808)
    (hs1 : -9223372036854775808 ≤ base + d) (hs2 : base + d < 9223372036854775808) :
    StreamBuffer.seek b d origin pos
      = if base + d < 0 then { status := einvalidarg, b := b, pos := pos }
        else { status := 0, b := { data := b.data, offset := base + d },
               pos := pos.map (fun _ => uint64 (base + d)) } := by
  have hwd := wrapInt64_of_range d hd1 hd2
  rcases seekBase_some b origin base hbase with ⟨ho, hb⟩ | ⟨ho, hb⟩ | ⟨ho, hb⟩
  · subst ho; subst hb
    have hw : wrapInt64 d = 0 + d := by rw [hwd]; omega
    simp only [StreamBuffer.seek, SeekStart, if_true, hw]
  · subst ho; subst hb
    have hw : wrapInt64 (b.offset + d) = b.offset + d := wrapInt64_of_range _ hs1 hs2
    have h10 : ¬ (1 = SeekStart) := by decide
    simp only [StreamBuffer.seek, h10, if_false, SeekCurrent, if_true, hwd, hw]
  · subst ho; subst hb
    have hw : wrapInt64 ((b.data.length : Int) + d) = (b.data.length : Int) + d :=
      wrapInt64_of_range _ hs1 hs2
    have h20 : ¬ (2 = SeekStart) := by decide
    have h21 : ¬ (2 = SeekCurrent) := by decide
    simp only [StreamBuffer.seek, h20, h21, if_false, SeekEnd, if_true, hwd, hw]

theorem seek_undefined_origin (b : StreamBuffer) (d : Int) (origin : Nat) (pos : Option Nat)
    (h : seekBase b origin = none) :
    StreamBuffer.seek b d origin pos = { status := einvalidarg, b := b, pos := pos } := by
  obtain ⟨h0, h1, h2⟩ := seekBase_none b origin h
  have e0 : ¬ (origin = SeekStart) := h0
  have e1 : ¬ (origin = SeekCurrent) := h1
  have e2 : ¬ (origin = SeekEnd) := h2
  simp only [StreamBuffer.seek, e0, e1, e2, if_false]

end shobjidl

namespace shobjidl

open Go

/-- C11 (as stated, at a state a one byte `write` on a fresh stream produces): with
a buffer of one byte, `seek(2^63 - 1, FromEnd)` has `base + d = 2^63 ≥ 0`, yet it
returns the invalid-argument status and leaves the offset where it was. -/
theorem C11_seek_counterexample :
    StreamBuffer.write NewStreamBuffer [7] none
        = some { status := 0, b := { data := [7], offset := 1 }, buf := [7], n := none }
    ∧ seekBase { data := [7], offset := 1 } 2 = some 1
    ∧ (0 : Int) ≤ 1 + 9223372036854775807
    ∧ StreamBuffer.seek { data := [7], offset := 1 } 9223372036854775807 2 (some 0)
        = { status := einvalidarg, b := { data := [7], offset := 1 }, pos := some 0 }
    ∧ einvalidarg ≠ 0 := by
  refine ⟨by decide, by decide, by decide, by decide, by decide⟩

/-- C11 (amended): for every state, every `int64` offset `d` and every origin among
`FromStart = 0`, `FromCurrent = 1`, `FromEnd = 2` with base 0, the current offset
or `len(buffer)`: if `0 ≤ base + d < 2^63` then `seek` returns status 0, sets the
offset to `base + d`, reports `base + d` as the new position and leaves the buffer
unchanged, however far `base + d` lies behind `len(buffer)`. -/
theorem C11_seek_sets_offset (b : StreamBuffer) (d : Int) (origin : Nat) (pos : Option Nat)
    (base : Int) (hbase : seekBase b origin = some base)
    (hd1 : -9223372036854775808 ≤ d) (hd2 : d < 9223372036854775808)
    (h0 : 0 ≤ base + d) (h1 : base + d < 9223372036854775808) :
    StreamBuffer.seek b d origin pos
      = { status := 0, b := { data := b.data, offset := base + d },
          pos := pos.map (fun _ => (base + d).toNat) } := by
  have hnot : ¬ (base + d < 0) := by omega
  rw [seek_target b d origin pos base hbase hd1 hd2 (by omega) h1, if_neg hnot,
    uint64_of_range _ h0 h1]

theorem C11_seek_sets_offset_witness :
    (seekBase (StreamBuffer.mk [5, 6] 1) 2 = some 2
      ∧ (-9223372036854775808 : Int) ≤ 40 ∧ (40 : Int) < 9223372036854775808
      ∧ (0 : Int) ≤ 2 + 40 ∧ (2 : Int) + 40 < 9223372036854775808)
    ∧ StreamBuffer.seek (StreamBuffer.mk [5, 6] 1) 40 2 (some 0)
        = { status := 0, b := { data := (StreamBuffer.mk [5, 6] 1).data, offset := 2 + 40 },
            pos := (some 0).map (fun _ => ((2 : Int) + 40).toNat) } :=
  ⟨by decide, C11_seek_sets_offset (StreamBuffer.mk [5, 6] 1) 40 2 (some 0) 2
    (by decide) (by decide) (by decide) (by decide) (by decide)⟩

/-- C12: in a state with `0 ≤ offset`, for an `int64` offset `d`: when the origin is
not one of the three defined values, or `base(origin) + d < 0`, `seek` returns the
invalid-argument status `0x80070057` and leaves the offset, the buffer and the cell
for the new position unchanged. -/
theorem C12_seek_invalid (b : StreamBuffer) (d : Int) (origin : Nat) (pos : Option Nat)
    (hoff : 0 ≤ b.offset)
    (hd1 : -9223372036854775808 ≤ d) (hd2 : d < 9223372036854775808)
    (hfail : seekBase b origin = none
      ∨ ∃ base, seekBase b origin = some base ∧ base + d < 0) :
    StreamBuffer.seek b d origin pos = { status := einvalidarg, b := b, pos := pos }
    ∧ einvalidarg = 0x80070057 := by
  refine ⟨?_, rfl⟩
  rcases hfail with hnone | ⟨base, hbase, hneg⟩
  · exact seek_undefined_origin b d origin pos hnone
  · have hb0 : 0 ≤ base := by
      rcases seekBase_some b origin base hbase with ⟨_, hb⟩ | ⟨_, hb⟩ | ⟨_, hb⟩
      · omega
      · omega
      · omega
    rw [seek_target b d origin pos base hbase hd1 hd2 (by omega) (by omega), if_pos hneg]

theorem C12_seek_invalid_witness :
    ((0 : Int) ≤ NewStreamBuffer.offset
      ∧ (-9223372036854775808 : Int) ≤ -1 ∧ (-1 : Int) < 9223372036854775808
      ∧ (seekBase NewStreamBuffer 0 = none
          ∨ ∃ base, seekBase NewStreamBuffer 0 = some base ∧ base + (-1) < 0))
    ∧ (StreamBuffer.seek NewStreamBuffer (-1) 0 (some 5)
          = { status := einvalidarg, b := NewStreamBuffer, pos := some 5 }
        ∧ einvalidarg = 0x80070057) :=
  ⟨⟨by decide, by decide, by decide, Or.inr ⟨0, by decide, by decide⟩⟩,
    C12_seek_invalid NewStreamBuffer (-1) 0 (some 5) (by decide) (by decide) (by decide)
      (Or.inr ⟨0, by decide, by decide⟩)⟩

end shobjidl

namespace shobjidl

open Go

/-- A `seek(0, FromEnd)` puts the cursor at the end of the buffer. -/
theorem seek_to_end (b : StreamBuffer) (pos : Option Nat)
    (hlen : (b.data.length : Int) < 9223372036854775808) :
    StreamBuffer.seek b 0 SeekEnd pos
      = { status := 0, b := { data := b.data, offset := (b.data.length : Int) },
          pos := pos.map (fun _ => b.data.length) } := by
  have hbase : seekBase b SeekEnd = some (b.data.length : Int) := by
    simp [seekBase, SeekEnd]
  have hnot : ¬ ((b.data.length : Int) + 0 < 0) := by omega
  rw [seek_target b 0 SeekEnd pos _ hbase (by omega) (by omega) (by omega) (by omega),
    if_neg hnot, uint64_of_range _ (by omega) (by omega)]
  simp only [Int.add_zero, Int.toNat_ofNat]

/-- A `write` with the cursor at the end of the buffer appends the chunk. -/
theorem write_at_end (data buf : List Byte) (n : Option Nat)
    (hlen : (data.length : Int) + ((min buf.length 4096 : Nat) : Int) < 9223372036854775808) :
    StreamBuffer.write { data := data, offset := (data.length : Int) } buf n
      = some { status := 0
               b := { data := data ++ buf.take 4096
                      offset := (data.length : Int) + ((min buf.length 4096 : Nat) : Int) }
               buf := buf
               n := n.map (fun _ => min buf.length 4096) } := by
  have hk := take_maxChunk_length buf
  have h := write_overlay data buf data.length n hlen
  have hD : (if data.length < data.length + (buf.take maxChunk).length
      then grow data (data.length + (buf.take maxChunk).length - data.length) else data)
      = data ++ List.replicate (buf.take maxChunk).length 0 := by
    split
    · rw [grow, Nat.add_sub_cancel_left]
    · have hz : (buf.take maxChunk).length = 0 := by omega
      rw [hz, List.replicate_zero, List.append_nil]
  rw [hD, take_append_of_length _ _ _ rfl,
    List.drop_of_length_le (by simp only [List.length_append, List.length_replicate]; omega),
    List.append_nil, hk] at h
  exact h

/-- C13 (as stated, at 4097 bytes of data on a fresh stream): `seek(0, FromEnd)` and
a `write` of 4097 bytes leave a buffer of 4096 bytes, which is not the old buffer
followed by the data. -/
theorem C13_append_counterexample :
    ∃ res, StreamBuffer.write (StreamBuffer.seek NewStreamBuffer 0 SeekEnd none).b
              (List.replicate 4097 1) none = some res
      ∧ res.b.data.length = 4096
      ∧ res.b.data ≠ NewStreamBuffer.data ++ List.replicate 4097 1 := by
  rw [seek_to_end NewStreamBuffer none (by decide)]
  have hfit : ((NewStreamBuffer.data.length : Nat) : Int)
      + ((min (List.replicate 4097 (1 : Byte)).length 4096 : Nat) : Int)
      < 9223372036854775808 := by
    rw [List.length_replicate]; decide
  have hl : (NewStreamBuffer.data ++ (List.replicate 4097 (1 : Byte)).take 4096).length = 4096 := by
    simp only [List.length_append, List.length_take, List.length_replicate]; decide
  refine ⟨_, write_at_end NewStreamBuffer.data (List.replicate 4097 1) none hfit, hl, ?_⟩
  intro h
  have h2 := congrArg List.length h
  rw [hl] at h2
  simp only [List.length_append, List.length_replicate] at h2
  revert h2
  decide

/-- C13 (amended): for every state whose buffer `old` is shorter than
`2^63 - min(len(data), 4096)` bytes and every byte string `data`, `seek(0, FromEnd)`
followed by `write(data)` returns status 0 twice and appends the first
`min(len(data), 4096)` bytes of `data` at the prior end: afterwards the buffer is
`old` followed by those bytes, which is `old` followed by `data` itself when
`len(data) ≤ 4096`, and the offset equals the new buffer length. -/
theorem C13_seek_end_write_appends (b : StreamBuffer) (data : List Byte) (n pos : Option Nat)
    (hlen : (b.data.length : Int) + ((min data.length 4096 : Nat) : Int)
      < 9223372036854775808) :
    (StreamBuffer.seek b 0 SeekEnd pos).status = 0
    ∧ ∃ res, StreamBuffer.write (StreamBuffer.seek b 0 SeekEnd pos).b data n = some res
      ∧ res.status = 0
      ∧ res.b.data = b.data ++ data.take (min data.length 4096)
      ∧ res.b.offset = (res.b.data.length : Int)
      ∧ res.n = n.map (fun _ => min data.length 4096) := by
  rw [seek_to_end b pos (by omega)]
  refine ⟨rfl, _, write_at_end b.data data n hlen, rfl, ?_, ?_, rfl⟩
  · show b.data ++ data.take 4096 = _
    by_cases hl : data.length ≤ 4096
    · rw [Nat.min_eq_left hl, List.take_of_length_le hl, List.take_length]
    · rw [Nat.min_eq_right (by omega)]
  · show (b.data.length : Int) + ((min data.length 4096 : Nat) : Int)
      = ((b.data ++ data.take 4096).length : Int)
    rw [List.length_append, List.length_take, Nat.min_comm]
    push_cast
    rfl

theorem C13_seek_end_write_appends_witness :
    (((StreamBuffer.mk [5, 6, 7] 1).data.length : Int)
        + ((min [1, 2].length 4096 : Nat) : Int) < 9223372036854775808)
    ∧ ((StreamBuffer.seek (StreamBuffer.mk [5, 6, 7] 1) 0 SeekEnd (some 0)).status = 0
      ∧ ∃ res, StreamBuffer.write
                (StreamBuffer.seek (StreamBuffer.mk [5, 6, 7] 1) 0 SeekEnd (some 0)).b
                [1, 2] (some 0) = some res
        ∧ res.status = 0
        ∧ res.b.data = (StreamBuffer.mk [5, 6, 7] 1).data ++ [1, 2].take (min [1, 2].length 4096)
        ∧ res.b.offset = (res.b.data.length : Int)
        ∧ res.n = (some 0).map (fun _ => min [1, 2].length 4096)) :=
  ⟨by decide, C13_seek_end_write_appends (StreamBuffer.mk [5, 6, 7] 1) [1, 2] (some 0) (some 0)
    (by decide)⟩

end shobjidl

namespace shobjidl

open Go

/-- The function `setSize`: status 0, the old buffer followed by zeros up to `s`,
the offset unchanged. -/
theorem setSize_spec (b : StreamBuffer) (s : Int)
    (hs1 : -9223372036854775808 ≤ s) (hs2 : s < 9223372036854775808) :
    (StreamBuffer.setSize b s).status = 0
    ∧ (StreamBuffer.setSize b s).b.data
        = b.data ++ List.replicate (s - (b.data.length : Int)).toNat 0
    ∧ ((StreamBuffer.setSize b s).b.data.length : Int) = max (b.data.length : Int) s
    ∧ (StreamBuffer.setSize b s).b.data.take b.data.length = b.data
    ∧ (StreamBuffer.setSize b s).b.offset = b.offset := by
  have hw := wrapInt64_of_range s hs1 hs2
  by_cases hlt : (b.data.length : Int) < s
  · have hres : StreamBuffer.setSize b s
        = { status := 0,
            b := { data := grow b.data (s - (b.data.length : Int)).toNat,
                   offset := b.offset } } := by
      simp only [StreamBuffer.setSize, hw, hlt, if_true]
    rw [hres]
    refine ⟨rfl, rfl, ?_, take_append_of_length _ _ _ rfl, rfl⟩
    simp only [grow, List.length_append, List.length_replicate]
    omega
  · have hres : StreamBuffer.setSize b s = { status := 0, b := b } := by
      simp only [StreamBuffer.setSize, hw, hlt, if_false]
    have hz : (s - (b.data.length : Int)).toNat = 0 := by omega
    rw [hres, hz, List.replicate_zero, List.append_nil]
    refine ⟨rfl, rfl, ?_, List.take_length _, rfl⟩
    simp only
    omega

/-- C15: in every state, `queryInterface` returns the not-implemented status
`0x80004001`, `addRef` and `release` return 0, and `copyTo`, `commit`, `revert`,
`lockRegion`, `unlockRegion`, `stat` and `clone` return `0x80004001`, which is not
the success status; each of the ten leaves the buffer and the offset unchanged. -/
theorem C15_fixed_status_slots (b : StreamBuffer) :
    StreamBuffer.queryInterface b = { status := 0x80004001, b := b }
    ∧ StreamBuffer.addRef b = { status := 0, b := b }
    ∧ StreamBuffer.release b = { status := 0, b := b }
    ∧ StreamBuffer.copyTo b = { status := 0x80004001, b := b }
    ∧ StreamBuffer.commit b = { status := 0x80004001, b := b }
    ∧ StreamBuffer.revert b = { status := 0x80004001, b := b }
    ∧ StreamBuffer.lockRegion b = { status := 0x80004001, b := b }
    ∧ StreamBuffer.unlockRegion b = { status := 0x80004001, b := b }
    ∧ StreamBuffer.stat b = { status := 0x80004001, b := b }
    ∧ StreamBuffer.clone b = { status := 0x80004001, b := b }
    ∧ (0x80004001 : Nat) ≠ 0 :=
  ⟨rfl, rfl, rfl, rfl, rfl, rfl, rfl, rfl, rfl, rfl, by decide⟩

/-- C16 (the code): for every function table, `GetDescription` invokes the address
in the slot `GetPath` and `SetDescription` invokes the address in the slot
`SetPath`; on a table with a different address in every slot neither invokes its
own slot. -/
theorem C16_description_calls_path_slots (vtable : IShellLinkVtbl) :
    (IShellLink.GetDescription vtable).trap = vtable.GetPath
    ∧ IShellLink.SetDescription vtable [65] = some { trap := vtable.SetPath, nargs := 2 }
    ∧ (IShellLink.GetDescription sampleVtbl).trap = sampleVtbl.GetPath
    ∧ (IShellLink.GetDescription sampleVtbl).trap ≠ sampleVtbl.GetDescription
    ∧ IShellLink.SetDescription sampleVtbl [65]
        = some { trap := sampleVtbl.SetPath, nargs := 2 }
    ∧ sampleVtbl.SetPath ≠ sampleVtbl.SetDescription
    ∧ (IShellLink.GetPath sampleVtbl).trap = sampleVtbl.GetPath
    ∧ IShellLink.SetPath sampleVtbl [65] = some { trap := sampleVtbl.SetPath, nargs := 2 } :=
  ⟨rfl, by simp [IShellLink.SetDescription], by decide, by decide, by decide, by decide,
    by decide, by decide⟩

/-- C17 (the code): `setSize` takes no guard although it changes the buffer, and
`read` runs under the shared guard although it changes the offset; `write` and
`seek` take the exclusive guard. -/
theorem C17_guards_in_the_code :
    guardOf Method.write = Guard.exclusive
    ∧ guardOf Method.seek = Guard.exclusive
    ∧ guardOf Method.setSize = Guard.unguarded
    ∧ (StreamBuffer.setSize { data := [], offset := 0 } 4).b.data = [0, 0, 0, 0]
    ∧ guardOf Method.read = Guard.shared
    ∧ StreamBuffer.read { data := [5, 6, 7, 8], offset := 0 } [0, 0] none
        = some { status := 0, b := { data := [5, 6, 7, 8], offset := 2 }, buf := [5, 6],
                 n := none } :=
  ⟨rfl, rfl, rfl, by decide, rfl, by decide⟩

end shobjidl

namespace shellns

open Go

theorem itemsEncoding_cons (item : Item) (rest : List Item) :
    itemsEncoding (item :: rest)
      = (item.length % 256) :: (item.length / 256) :: (item ++ itemsEncoding rest) := by
  simp only [itemsEncoding, List.map_cons, List.flatten_cons, le16, List.cons_append,
    List.nil_append, List.append_assoc]

/-- The item entries determine the items. -/
theorem itemsEncoding_inj (l1 : List Item) :
    ∀ (l2 : List Item), itemsEncoding l1 = itemsEncoding l2 → l1 = l2 := by
  induction l1 with
  | nil =>
    intro l2 h
    cases l2 with
    | nil => rfl
    | cons b bs =>
      rw [itemsEncoding_cons] at h
      cases h
  | cons a as ih =>
    intro l2 h
    cases l2 with
    | nil =>
      rw [itemsEncoding_cons] at h
      cases h
    | cons b bs =>
      rw [itemsEncoding_cons, itemsEncoding_cons] at h
      simp only [List.cons.injEq] at h
      obtain ⟨hlo, hhi, htail⟩ := h
      have hlen : a.length = b.length := by omega
      obtain ⟨hab, hrest⟩ := List.append_inj htail hlen
      rw [hab, ih bs hrest]

theorem wireEncoding_eq (list : List Item) :
    wireEncoding list
      = (list.length % 256) :: (list.length / 256) :: (itemsEncoding list ++ [0, 0]) := by
  simp only [wireEncoding, itemsEncoding, le16, List.cons_append, List.nil_append,
    List.append_assoc]

theorem wireEncoding_inj (l1 l2 : List Item) (h : wireEncoding l1 = wireEncoding l2) :
    l1 = l2 := by
  rw [wireEncoding_eq, wireEncoding_eq] at h
  simp only [List.cons.injEq] at h
  obtain ⟨-, -, htail⟩ := h
  exact itemsEncoding_inj l1 l2 (List.append_cancel_right htail)

theorem MarshalBinary_eq (list : List Item) (hsize : List.Size list ≤ 65535) :
    List.MarshalBinary list = some { data := wireEncoding list, err := none } := by
  have h := MarshalBinaryTo_eq list (List.replicate (List.Size list) 0) hsize
    (by rw [List.length_replicate])
  rw [List.drop_of_length_le (by rw [List.length_replicate]), List.append_nil] at h
  exact h

/-- C18: for lists `l1` and `l2` with `Size ≤ 65535`, if `MarshalBinary(l1)` and
`MarshalBinary(l2)` return the same bytes then `l1` and `l2` are the same list: the
same number of items and the same item bytes in the same order. -/
theorem C18_marshalBinary_injective (l1 l2 : List Item)
    (h1 : List.Size l1 ≤ 65535) (h2 : List.Size l2 ≤ 65535)
    (hbytes : (List.MarshalBinary l1).map MarshalResult.data
      = (List.MarshalBinary l2).map MarshalResult.data) :
    l1 = l2 ∧ l1.length = l2.length := by
  rw [MarshalBinary_eq l1 h1, MarshalBinary_eq l2 h2] at hbytes
  simp only [Option.map_some', Option.some.injEq] at hbytes
  have h := wireEncoding_inj l1 l2 hbytes
  exact ⟨h, by rw [h]⟩

theorem C18_marshalBinary_injective_witness :
    (List.Size [[1, 2], []] ≤ 65535 ∧ List.Size [[1, 2], []] ≤ 65535
      ∧ (List.MarshalBinary [[1, 2], []]).map MarshalResult.data
          = (List.MarshalBinary [[1, 2], []]).map MarshalResult.data)
    ∧ (([[1, 2], []] : List Item) = [[1, 2], []]
        ∧ ([[1, 2], []] : List Item).length = ([[1, 2], []] : List Item).length) :=
  ⟨by decide, C18_marshalBinary_injective [[1, 2], []] [[1, 2], []]
    (by decide) (by decide) rfl⟩

end shellns

namespace shellns

open Go

theorem item_length_lt (list : List Item) (hsize : List.Size list ≤ 65535) (item : Item)
    (h : item ∈ list) : item.length < 65536 := by
  have h1 := item_length_le_itemsSize list item h
  have h2 := Size_eq list
  omega

/-- The three steps of `MarshalBinaryTo` behind its two checks: the list header, the
item loop and the terminal, with the write cursor after the loop. -/
theorem marshal_steps (list : List Item) (data : List Byte)
    (hsize : List.Size list ≤ 65535) (hlen : List.Size list ≤ data.length) :
    ∃ d1 d2 d3, putUint16At data 0 (uint16 list.length) = some d1
      ∧ List.marshalItems list d1 2 = some (d2, List.Size list - 2)
      ∧ putUint16At d2 (List.Size list - 2) 0 = some d3
      ∧ d3.length = data.length := by
  have hS := Size_eq list
  have hcount := length_le_itemsSize list
  obtain ⟨front, post, hdata, hfront, -⟩ :=
    split_length data (List.Size list) (data.length - List.Size list) (by omega)
  obtain ⟨hm, t, rfl, hhm, ht⟩ := split_length front (2 + itemsSize list) 2 (by omega)
  obtain ⟨h0, mid, rfl, hh0, hmid⟩ := split_length hm 2 (itemsSize list) hhm
  have hput0 := putUint16At_append [] h0 (mid ++ t ++ post) (uint16 list.length) hh0
  rw [le16_eq list.length (by omega)] at hput0
  simp only [List.nil_append, List.length_nil] at hput0
  have hl0 : (le16 list.length).length = 2 := rfl
  have hitems := marshalItems_append list (le16 list.length) mid (t ++ post) hmid (by omega)
  rw [hl0] at hitems
  have hl1 : (le16 list.length ++ itemsEncoding list).length = 2 + itemsSize list := by
    rw [List.length_append, hl0, itemsEncoding_length]
  have hput1 := putUint16At_append (le16 list.length ++ itemsEncoding list) t post 0 ht
  rw [hl1] at hput1
  have e0 : data = h0 ++ (mid ++ t ++ post) := by rw [hdata]; simp only [List.append_assoc]
  have e1 : le16 list.length ++ (mid ++ t ++ post) = le16 list.length ++ mid ++ (t ++ post) := by
    simp only [List.append_assoc]
  have e2 : le16 list.length ++ itemsEncoding list ++ (t ++ post)
      = le16 list.length ++ itemsEncoding list ++ t ++ post := by
    simp only [List.append_assoc]
  have hcur : List.Size list - 2 = 2 + itemsSize list := by omega
  refine ⟨le16 list.length ++ (mid ++ t ++ post),
    le16 list.length ++ itemsEncoding list ++ (t ++ post),
    le16 list.length ++ itemsEncoding list ++ [0 % 256, 0 / 256 % 256] ++ post, ?_, ?_, ?_, ?_⟩
  · conv_lhs => rw [e0]
    exact hput0
  · rw [e1, hitems, hcur]
  · rw [hcur, e2]
    exact hput1
  · rw [hdata]
    simp only [List.length_append, hl0, itemsEncoding_length, hh0, hmid, ht, List.length_cons,
      List.length_nil]

theorem MarshalBinaryTo_ne_none (list : List Item) (data : List Byte) :
    List.MarshalBinaryTo list data ≠ none := by
  by_cases hsize : List.Size list > 65535
  · rw [MarshalBinaryTo_of_size_gt list data hsize]
    exact fun h => Option.noConfusion h
  · by_cases hlen : data.length < List.Size list
    · simp only [List.MarshalBinaryTo, hsize, hlen, if_true, if_false]
      exact fun h => Option.noConfusion h
    · rw [MarshalBinaryTo_eq list data (by omega) (by omega)]
      exact fun h => Option.noConfusion h

/-- C20: for every list with `Size(list) ≤ 65535`, `len(list) ≤ 65535` and
`len(item) ≤ 65535` for every item, so the `uint16` conversions written as the list
header and as the item headers keep the count and the lengths; on a destination of
at least `Size(list)` bytes, one of exactly `Size(list)` bytes included, no slice
expression is out of range in the header, the item loop or the terminal, and the
write cursor after the loop is `Size(list) - 2`; `MarshalBinaryTo` never panics. -/
theorem C20_no_overflow_no_panic (list : List Item) (hsize : List.Size list ≤ 65535) :
    list.length ≤ 65535
    ∧ (∀ item ∈ list, item.length ≤ 65535)
    ∧ uint16 list.length = list.length
    ∧ (∀ item ∈ list, uint16 item.length = item.length)
    ∧ (∀ data : List Byte, List.Size list ≤ data.length →
        ∃ d1 d2 d3, putUint16At data 0 (uint16 list.length) = some d1
          ∧ List.marshalItems list d1 2 = some (d2, List.Size list - 2)
          ∧ putUint16At d2 (List.Size list - 2) 0 = some d3
          ∧ d3.length = data.length)
    ∧ (∀ data : List Byte, List.MarshalBinaryTo list data ≠ none) := by
  have hS := Size_eq list
  have hcount := length_le_itemsSize list
  have hitem : ∀ item ∈ list, item.length < 65536 := item_length_lt list hsize
  refine ⟨by omega, ?_, ?_, ?_, ?_, ?_⟩
  · intro item hi
    have := hitem item hi
    omega
  · exact Nat.mod_eq_of_lt (by omega)
  · intro item hi
    exact Nat.mod_eq_of_lt (hitem item hi)
  · intro data hlen
    exact marshal_steps list data hsize hlen
  · intro data
    exact MarshalBinaryTo_ne_none list data

theorem C20_no_overflow_no_panic_witness :
    List.Size [[1, 2], [], [3]] ≤ 65535
    ∧ (([[1, 2], [], [3]] : List Item).length ≤ 65535
      ∧ (∀ item ∈ ([[1, 2], [], [3]] : List Item), item.length ≤ 65535)
      ∧ uint16 ([[1, 2], [], [3]] : List Item).length = ([[1, 2], [], [3]] : List Item).length
      ∧ (∀ item ∈ ([[1, 2], [], [3]] : List Item), uint16 item.length = item.length)
      ∧ (∀ data : List Byte, List.Size [[1, 2], [], [3]] ≤ data.length →
          ∃ d1 d2 d3,
            putUint16At data 0 (uint16 ([[1, 2], [], [3]] : List Item).length) = some d1
            ∧ List.marshalItems [[1, 2], [], [3]] d1 2
                = some (d2, List.Size [[1, 2], [], [3]] - 2)
            ∧ putUint16At d2 (List.Size [[1, 2], [], [3]] - 2) 0 = some d3
            ∧ d3.length = data.length)
      ∧ (∀ data : List Byte, List.MarshalBinaryTo [[1, 2], [], [3]] data ≠ none)) :=
  ⟨by decide, C20_no_overflow_no_panic [[1, 2], [], [3]] (by decide)⟩

end shellns

namespace shobjidl

open Go

theorem read_offset_nonneg (b : StreamBuffer) (buf : List Byte) (n : Option Nat)
    (h : 0 ≤ b.offset) :
    ∃ res, StreamBuffer.read b buf n = some res ∧ 0 ≤ res.b.offset := by
  by_cases hend : b.offset ≥ (b.data.length : Int)
  · exact ⟨{ status := 0, b := b, buf := buf, n := n.map (fun _ => 0) },
      by simp only [StreamBuffer.read, hend, if_true], h⟩
  · obtain ⟨data, offset⟩ := b
    obtain ⟨off, rfl⟩ := Int.eq_ofNat_of_zero_le h
    have hlt : off < data.length := by
      simp only [ge_iff_le, not_le] at hend
      omega
    refine ⟨_, read_before_end data buf off n hlt, ?_⟩
    simp only
    omega

theorem write_offset_nonneg (b : StreamBuffer) (buf : List Byte) (n : Option Nat)
    (h : 0 ≤ b.offset) (res : TransferResult) (hres : StreamBuffer.write b buf n = some res) :
    0 ≤ res.b.offset := by
  have hnot : ¬ (b.offset < 0) := by omega
  simp only [StreamBuffer.write, hnot, if_false] at hres
  split at hres
  · cases hres
  · rename_i data2 k _
    have hb : res.b.offset = b.offset + (k : Int) := by
      rw [← Option.some.inj hres]
    rw [hb]
    omega

theorem seek_offset_nonneg (b : StreamBuffer) (d : Int) (origin : Nat) (pos : Option Nat)
    (h : 0 ≤ b.offset) : 0 ≤ (StreamBuffer.seek b d origin pos).b.offset := by
  simp only [StreamBuffer.seek]
  split
  · exact h
  · split
    · exact h
    · simp only
      omega

theorem setSize_offset (b : StreamBuffer) (s : Int) :
    (StreamBuffer.setSize b s).b.offset = b.offset := by
  simp only [StreamBuffer.setSize]
  split <;> rfl

end shobjidl

namespace shobjidl

open Go

end shobjidl

namespace shobjidl

open Go

/-- A `write` of at most 4096 bytes on the fresh stream buffer. -/
theorem write_fresh (data : List Byte) (n : Option Nat) (hlen : data.length ≤ 4096) :
    StreamBuffer.write NewStreamBuffer data n
      = some { status := 0
               b := { data := data, offset := (data.length : Int) }
               buf := data
               n := n.map (fun _ => data.length) } := by
  have hfresh : NewStreamBuffer
      = { data := [], offset := ((([] : List Byte).length : Nat) : Int) } := rfl
  have h := write_at_end [] data n (by simp only [List.length_nil]; omega)
  rw [Nat.min_eq_left hlen, List.take_of_length_le hlen, List.nil_append] at h
  rw [hfresh, h]
  simp only [List.length_nil, Nat.cast_zero, Int.zero_add]

/-- A `seek(0, FromStart)` puts the cursor at the start of the buffer. -/
theorem seek_to_start (b : StreamBuffer) (pos : Option Nat) :
    StreamBuffer.seek b 0 SeekStart pos
      = { status := 0, b := { data := b.data, offset := 0 }, pos := pos.map (fun _ => 0) } := by
  have hbase : seekBase b SeekStart = some 0 := by simp [seekBase, SeekStart]
  have hnot : ¬ ((0 : Int) + 0 < 0) := by omega
  rw [seek_target b 0 SeekStart pos 0 hbase (by omega) (by omega) (by omega) (by omega),
    if_neg hnot, uint64_of_range _ (by omega) (by omega)]
  simp only [Int.add_zero, Int.toNat_zero]

/-- A `read` from the start of the buffer into a destination as long as the buffer,
of at most 4096 bytes, delivers the whole buffer. -/
theorem read_whole (data dst : List Byte) (n : Option Nat)
    (hdst : dst.length = data.length) (hlen : data.length ≤ 4096) :
    StreamBuffer.read { data := data, offset := 0 } dst n
      = some { status := 0
               b := { data := data, offset := (data.length : Int) }
               buf := data
               n := n.map (fun _ => data.length) } := by
  by_cases hempty : data.length = 0
  · have hd : data = [] := List.length_eq_zero.mp hempty
    have hb : dst = [] := List.length_eq_zero.mp (by omega)
    subst hd; subst hb
    cases n <;> rfl
  · have hpos : 0 < data.length := Nat.pos_of_ne_zero hempty
    have h := read_before_end data dst 0 n hpos
    have hk : min (min dst.length 4096) (data.length - 0) = data.length := by omega
    rw [hk, List.drop_zero, List.take_length,
      List.drop_of_length_le (by omega), List.append_nil] at h
    have hz : ((0 : Nat) : Int) = 0 := rfl
    rw [hz, Int.zero_add] at h
    exact h

end shobjidl

namespace shobjidl

open Go

/-- C21: for every byte string `data` of at most 4096 bytes, on the fresh stream
buffer the sequence `write(data)`, `seek(0, FromStart)`, `read` into a destination of
`len(data)` bytes returns status 0 at every step; the read reports `len(data)` bytes
and leaves exactly `data` in the destination; afterwards `Bytes()` is `data` and the
offset is `len(data)`. -/
theorem C21_read_undoes_write (data dst : List Byte) (nw nr pos : Option Nat)
    (hlen : data.length ≤ 4096) (hdst : dst.length = data.length) :
    ∃ w, StreamBuffer.write NewStreamBuffer data nw = some w
      ∧ w.status = 0
      ∧ (StreamBuffer.seek w.b 0 SeekStart pos).status = 0
      ∧ ∃ r, StreamBuffer.read (StreamBuffer.seek w.b 0 SeekStart pos).b dst nr = some r
        ∧ r.status = 0
        ∧ r.n = nr.map (fun _ => data.length)
        ∧ r.buf = data
        ∧ StreamBuffer.Bytes r.b = data
        ∧ r.b.offset = (data.length : Int) := by
  refine ⟨_, write_fresh data nw hlen, rfl, ?_⟩
  rw [seek_to_start]
  exact ⟨rfl, _, read_whole data dst nr hdst hlen, rfl, rfl, rfl, rfl, rfl⟩

theorem C21_read_undoes_write_witness :
    (([9, 8, 7] : List Byte).length ≤ 4096
      ∧ ([0, 0, 0] : List Byte).length = ([9, 8, 7] : List Byte).length)
    ∧ ∃ w, StreamBuffer.write NewStreamBuffer [9, 8, 7] (some 0) = some w
      ∧ w.status = 0
      ∧ (StreamBuffer.seek w.b 0 SeekStart (some 5)).status = 0
      ∧ ∃ r, StreamBuffer.read (StreamBuffer.seek w.b 0 SeekStart (some 5)).b [0, 0, 0] (some 1)
                = some r
        ∧ r.status = 0
        ∧ r.n = (some 1).map (fun _ => ([9, 8, 7] : List Byte).length)
        ∧ r.buf = [9, 8, 7]
        ∧ StreamBuffer.Bytes r.b = [9, 8, 7]
        ∧ r.b.offset = ((([9, 8, 7] : List Byte).length : Nat) : Int) :=
  ⟨by decide, C21_read_undoes_write [9, 8, 7] [0, 0, 0] (some 0) (some 1) (some 5)
    (by decide) (by decide)⟩

end shobjidl

namespace shobjidl

open Go

theorem growAlloc_fits (avail : Nat) (data : List Byte) (k : Nat)
    (h1 : data.length + k ≤ avail) (h2 : data.length + k ≤ maxAlloc) :
    growAlloc avail data k = some (grow data k) := by
  simp only [growAlloc, h1, h2, and_self, if_true]

theorem growAlloc_some (avail : Nat) (data : List Byte) (k : Nat) (data1 : List Byte)
    (h : growAlloc avail data k = some data1) : data1 = grow data k := by
  unfold growAlloc at h
  split at h
  · exact (Option.some.inj h).symm
  · cases h

/-- Whatever `writeAlloc` returns, `write` returns. -/
theorem writeAlloc_some (avail : Nat) (b : StreamBuffer) (buf : List Byte) (n : Option Nat)
    (res : TransferResult) (h : StreamBuffer.writeAlloc avail b buf n = some res) :
    StreamBuffer.write b buf n = some res := by
  unfold StreamBuffer.writeAlloc at h
  unfold StreamBuffer.write
  simp only at h ⊢
  by_cases hlt : (b.data.length : Int)
      < wrapInt64 (b.offset + ((buf.take maxChunk).length : Int))
  · rw [if_pos hlt] at h ⊢
    cases hg : growAlloc avail b.data
        (wrapInt64 (b.offset + ((buf.take maxChunk).length : Int))
          - (b.data.length : Int)).toNat with
    | none => rw [hg] at h; cases h
    | some data1 =>
      rw [hg] at h
      rw [← growAlloc_some _ _ _ _ hg]
      exact h
  · rw [if_neg hlt] at h ⊢
    exact h

/-- The function `writeAlloc` returns what `write` returns when `b.data` need not
grow or the grown slice can be allocated. -/
theorem writeAlloc_eq_write (avail : Nat) (b : StreamBuffer) (buf : List Byte)
    (n : Option Nat)
    (hfit : (b.data.length : Int) < wrapInt64 (b.offset + ((buf.take maxChunk).length : Int)) →
      wrapInt64 (b.offset + ((buf.take maxChunk).length : Int)) ≤ (avail : Int)
      ∧ wrapInt64 (b.offset + ((buf.take maxChunk).length : Int)) ≤ (maxAlloc : Int)) :
    StreamBuffer.writeAlloc avail b buf n = StreamBuffer.write b buf n := by
  unfold StreamBuffer.writeAlloc StreamBuffer.write
  simp only
  by_cases hlt : (b.data.length : Int)
      < wrapInt64 (b.offset + ((buf.take maxChunk).length : Int))
  · obtain ⟨h1, h2⟩ := hfit hlt
    rw [if_pos hlt, if_pos hlt, growAlloc_fits _ _ _ (by omega) (by omega)]
  · rw [if_neg hlt, if_neg hlt]

/-- Whatever `setSizeAlloc` returns is what `setSize` returns. -/
theorem setSizeAlloc_some (avail : Nat) (b : StreamBuffer) (s : Int) (res : StatusResult)
    (h : StreamBuffer.setSizeAlloc avail b s = some res) : res = StreamBuffer.setSize b s := by
  unfold StreamBuffer.setSizeAlloc at h
  unfold StreamBuffer.setSize
  simp only at h ⊢
  by_cases hlt : (b.data.length : Int) < wrapInt64 s
  · rw [if_pos hlt] at h ⊢
    cases hg : growAlloc avail b.data (wrapInt64 s - (b.data.length : Int)).toNat with
    | none => rw [hg] at h; cases h
    | some data1 =>
      rw [hg] at h
      rw [← growAlloc_some _ _ _ _ hg]
      exact (Option.some.inj h).symm
  · rw [if_neg hlt] at h ⊢
    exact (Option.some.inj h).symm

/-- The function `setSizeAlloc` returns what `setSize` returns when `b.data` need
not grow or the grown slice can be allocated. -/
theorem setSizeAlloc_eq_setSize (avail : Nat) (b : StreamBuffer) (s : Int)
    (hfit : (b.data.length : Int) < wrapInt64 s →
      wrapInt64 s ≤ (avail : Int) ∧ wrapInt64 s ≤ (maxAlloc : Int)) :
    StreamBuffer.setSizeAlloc avail b s = some (StreamBuffer.setSize b s) := by
  unfold StreamBuffer.setSizeAlloc StreamBuffer.setSize
  simp only
  by_cases hlt : (b.data.length : Int) < wrapInt64 s
  · obtain ⟨h1, h2⟩ := hfit hlt
    rw [if_pos hlt, if_pos hlt, growAlloc_fits _ _ _ (by omega) (by omega)]
  · rw [if_neg hlt, if_neg hlt]

/-- A `setSizeAlloc` beyond `maxAlloc` does not return, whatever `avail` is. -/
theorem setSizeAlloc_beyond_maxAlloc (avail : Nat) (b : StreamBuffer) (s : Int)
    (hs1 : (maxAlloc : Int) < s) (hs2 : s < 9223372036854775808)
    (hlen : (b.data.length : Int) < s) :
    StreamBuffer.setSizeAlloc avail b s = none := by
  have hw := wrapInt64_of_range s (by unfold maxAlloc at hs1; omega) hs2
  have hno : ¬ (b.data.length + (s - (b.data.length : Int)).toNat ≤ avail
      ∧ b.data.length + (s - (b.data.length : Int)).toNat ≤ maxAlloc) := by
    intro h
    omega
  simp only [StreamBuffer.setSizeAlloc, hw, hlen, if_true, growAlloc, hno, if_false]

end shobjidl

namespace shobjidl

open Go

/-- A `writeAlloc` that has to grow the buffer beyond `maxAlloc` does not return,
whatever `avail` is. -/
theorem writeAlloc_beyond_maxAlloc (avail : Nat) (b : StreamBuffer) (buf : List Byte)
    (n : Option Nat)
    (hbig : (maxAlloc : Int) < b.offset + ((buf.take maxChunk).length : Int))
    (hint : b.offset + ((buf.take maxChunk).length : Int) < 9223372036854775808)
    (hlen : (b.data.length : Int) < b.offset + ((buf.take maxChunk).length : Int)) :
    StreamBuffer.writeAlloc avail b buf n = none := by
  have hw := wrapInt64_of_range (b.offset + ((buf.take maxChunk).length : Int))
    (by unfold maxAlloc at hbig; omega) hint
  have hno : ¬ (b.data.length
        + (b.offset + ((buf.take maxChunk).length : Int) - (b.data.length : Int)).toNat ≤ avail
      ∧ b.data.length
        + (b.offset + ((buf.take maxChunk).length : Int) - (b.data.length : Int)).toNat
          ≤ maxAlloc) := by
    intro h
    omega
  simp only [StreamBuffer.writeAlloc, hw, hlen, if_true, growAlloc, hno, if_false]

/-- C7 (as stated, at two states `seek` produces on a fresh stream): with the cursor
at `2^62` on the empty buffer a `write` of one byte has to grow the buffer to
`2^62 + 1` bytes, more than the runtime allocates, and does not return, whatever
the runtime can allocate; with the cursor at `2^63 - 1` the sum `offset + 1` wraps
and the slice expression panics.  Neither call returns the result of the reference
definition. -/
theorem C7_write_counterexample :
    (StreamBuffer.seek NewStreamBuffer 4611686018427387904 SeekStart none).b
        = { data := [], offset := 4611686018427387904 }
    ∧ StreamBuffer.writeAlloc maxAlloc { data := [], offset := 4611686018427387904 } [1] none
        = none
    ∧ StreamBuffer.writeAlloc maxAlloc { data := [], offset := 4611686018427387904 } [1] none
        ≠ some (writeSpec { data := [], offset := 4611686018427387904 } [1] none)
    ∧ (∀ avail : Nat,
        StreamBuffer.writeAlloc avail { data := [], offset := 4611686018427387904 } [1] none
          = none)
    ∧ (StreamBuffer.seek NewStreamBuffer 9223372036854775807 SeekStart none).b
        = { data := [], offset := 9223372036854775807 }
    ∧ StreamBuffer.writeAlloc maxAlloc { data := [], offset := 9223372036854775807 } [1] none
        = none
    ∧ StreamBuffer.writeAlloc maxAlloc { data := [], offset := 9223372036854775807 } [1] none
        ≠ some (writeSpec { data := [], offset := 9223372036854775807 } [1] none) := by
  have h1 : StreamBuffer.writeAlloc maxAlloc
      { data := [], offset := 4611686018427387904 } [1] none = none := by decide
  have h2 : StreamBuffer.writeAlloc maxAlloc
      { data := [], offset := 9223372036854775807 } [1] none = none := by decide
  refine ⟨by decide, h1, ?_, ?_, by decide, h2, ?_⟩
  · rw [h1]
    exact fun hc => Option.noConfusion hc
  · intro avail
    exact writeAlloc_beyond_maxAlloc avail _ _ _ (by decide) (by decide) (by decide)
  · rw [h2]
    exact fun hc => Option.noConfusion hc

/-- C7 (amended): for every state with `0 ≤ offset` and `offset + n < 2^63`, where
`n = min(len(src), 4096)`, in which the buffer need not grow
(`offset + n ≤ len(data)`) or the runtime can allocate `offset + n` bytes (at most
`maxAlloc = 2^48`), `write` returns the result of the reference definition
`writeSpec`; the buffer afterwards has length `max(len(data), offset + n)`, which is
at least the offset before the write plus the bytes written and at least the old
length.  Whatever the runtime can allocate, a `write` that returns in such a state
returns the result of the reference definition. -/
theorem C7_write_refines_reference (avail : Nat) (b : StreamBuffer) (src : List Byte)
    (n : Option Nat) (h0 : 0 ≤ b.offset)
    (hint : b.offset + ((min src.length 4096 : Nat) : Int) < 9223372036854775808)
    (halloc : b.offset + ((min src.length 4096 : Nat) : Int) ≤ (b.data.length : Int)
      ∨ (b.offset + ((min src.length 4096 : Nat) : Int) ≤ (avail : Int)
          ∧ b.offset + ((min src.length 4096 : Nat) : Int) ≤ (maxAlloc : Int))) :
    (∃ res, StreamBuffer.writeAlloc avail b src n = some res
      ∧ res = writeSpec b src n
      ∧ res.b.data.length = max b.data.length (b.offset.toNat + min src.length 4096)
      ∧ b.offset + ((min src.length 4096 : Nat) : Int) ≤ (res.b.data.length : Int)
      ∧ b.data.length ≤ res.b.data.length)
    ∧ (∀ (avail2 : Nat) (res : TransferResult),
        StreamBuffer.writeAlloc avail2 b src n = some res → res = writeSpec b src n) := by
  have hlen := writeSpec_length b src n
  have hspec := write_eq_writeSpec b src n h0 hint
  have hk := take_maxChunk_length src
  have hw : wrapInt64 (b.offset + ((src.take maxChunk).length : Int))
      = b.offset + ((min src.length 4096 : Nat) : Int) := by
    rw [hk]
    exact wrapInt64_of_range _ (by omega) hint
  have heq : StreamBuffer.writeAlloc avail b src n = StreamBuffer.write b src n := by
    apply writeAlloc_eq_write
    rw [hw]
    intro hlt
    rcases halloc with hle | hfit
    · omega
    · exact hfit
  refine ⟨⟨_, heq.trans hspec, rfl, hlen, ?_, ?_⟩, ?_⟩
  · rw [hlen]; omega
  · rw [hlen]; omega
  · intro avail2 res hres
    have := writeAlloc_some avail2 b src n res hres
    rw [hspec] at this
    exact (Option.some.inj this).symm

theorem C7_write_refines_reference_witness :
    ((0 : Int) ≤ (StreamBuffer.mk [5, 6] 4).offset
      ∧ (StreamBuffer.mk [5, 6] 4).offset + ((min [1, 2].length 4096 : Nat) : Int)
          < 9223372036854775808
      ∧ ((StreamBuffer.mk [5, 6] 4).offset + ((min [1, 2].length 4096 : Nat) : Int)
            ≤ ((StreamBuffer.mk [5, 6] 4).data.length : Int)
          ∨ ((StreamBuffer.mk [5, 6] 4).offset + ((min [1, 2].length 4096 : Nat) : Int)
              ≤ ((10 : Nat) : Int)
            ∧ (StreamBuffer.mk [5, 6] 4).offset + ((min [1, 2].length 4096 : Nat) : Int)
              ≤ (maxAlloc : Int))))
    ∧ ((∃ res, StreamBuffer.writeAlloc 10 (StreamBuffer.mk [5, 6] 4) [1, 2] (some 9) = some res
        ∧ res = writeSpec (StreamBuffer.mk [5, 6] 4) [1, 2] (some 9)
        ∧ res.b.data.length
            = max (StreamBuffer.mk [5, 6] 4).data.length
                ((StreamBuffer.mk [5, 6] 4).offset.toNat + min [1, 2].length 4096)
        ∧ (StreamBuffer.mk [5, 6] 4).offset + ((min [1, 2].length 4096 : Nat) : Int)
            ≤ (res.b.data.length : Int)
        ∧ (StreamBuffer.mk [5, 6] 4).data.length ≤ res.b.data.length)
      ∧ (∀ (avail2 : Nat) (res : TransferResult),
          StreamBuffer.writeAlloc avail2 (StreamBuffer.mk [5, 6] 4) [1, 2] (some 9) = some res
            → res = writeSpec (StreamBuffer.mk [5, 6] 4) [1, 2] (some 9))) :=
  ⟨⟨by decide, by decide, Or.inr ⟨by decide, by decide⟩⟩,
    C7_write_refines_reference 10 (StreamBuffer.mk [5, 6] 4) [1, 2] (some 9)
      (by decide) (by decide) (Or.inr ⟨by decide, by decide⟩)⟩

end shobjidl

namespace shobjidl

open Go

/-- C14 (as stated, at `setSize(2^62)` on a fresh stream): the size is an `int64` and
the buffer would have to grow to `2^62` bytes, more than the runtime allocates; the
call does not return status 0, it does not return at all, whatever the runtime can
allocate. -/
theorem C14_setSize_counterexample :
    (-9223372036854775808 : Int) ≤ 4611686018427387904
    ∧ (4611686018427387904 : Int) < 9223372036854775808
    ∧ StreamBuffer.setSizeAlloc maxAlloc NewStreamBuffer 4611686018427387904 = none
    ∧ (∀ avail : Nat, StreamBuffer.setSizeAlloc avail NewStreamBuffer 4611686018427387904 = none)
    ∧ (∀ avail : Nat, ∀ res : StatusResult,
        StreamBuffer.setSizeAlloc avail NewStreamBuffer 4611686018427387904 ≠ some res) := by
  have hall : ∀ avail : Nat,
      StreamBuffer.setSizeAlloc avail NewStreamBuffer 4611686018427387904 = none := by
    intro avail
    exact setSizeAlloc_beyond_maxAlloc avail _ _ (by decide) (by decide) (by decide)
  refine ⟨by decide, by decide, hall maxAlloc, hall, ?_⟩
  intro avail res h
  rw [hall avail] at h
  exact Option.noConfusion h

/-- C14 (amended): for every state and every `int64` size `s` such that
`s ≤ len(buffer)` or the runtime can allocate `s` bytes (at most `maxAlloc = 2^48`),
`setSize(s)` returns status 0 and never truncates: the new buffer is the old buffer
followed by `s - len(buffer)` zero bytes (none when `s ≤ len(buffer)`, a negative
`s` included), so its length is `max(len(buffer), s)` and the old contents are its
first `len(buffer)` bytes; the offset is unchanged.  Whatever the runtime can
allocate, a `setSize(s)` that returns returns this result. -/
theorem C14_setSize_grows (avail : Nat) (b : StreamBuffer) (s : Int)
    (hs1 : -9223372036854775808 ≤ s) (hs2 : s < 9223372036854775808)
    (halloc : s ≤ (b.data.length : Int) ∨ (s ≤ (avail : Int) ∧ s ≤ (maxAlloc : Int))) :
    ∃ res, StreamBuffer.setSizeAlloc avail b s = some res
      ∧ res.status = 0
      ∧ res.b.data = b.data ++ List.replicate (s - (b.data.length : Int)).toNat 0
      ∧ (res.b.data.length : Int) = max (b.data.length : Int) s
      ∧ res.b.data.take b.data.length = b.data
      ∧ res.b.offset = b.offset
      ∧ (∀ (avail2 : Nat) (res2 : StatusResult),
          StreamBuffer.setSizeAlloc avail2 b s = some res2 → res2 = res) := by
  have hw := wrapInt64_of_range s hs1 hs2
  have heq : StreamBuffer.setSizeAlloc avail b s = some (StreamBuffer.setSize b s) := by
    apply setSizeAlloc_eq_setSize
    rw [hw]
    intro hlt
    rcases halloc with hle | hfit
    · omega
    · exact hfit
  obtain ⟨h1, h2, h3, h4, h5⟩ := setSize_spec b s hs1 hs2
  exact ⟨_, heq, h1, h2, h3, h4, h5, fun avail2 res2 h => setSizeAlloc_some avail2 b s res2 h⟩

theorem C14_setSize_grows_witness :
    ((-9223372036854775808 : Int) ≤ 4 ∧ (4 : Int) < 9223372036854775808
      ∧ ((4 : Int) ≤ ((StreamBuffer.mk [5, 6] 1).data.length : Int)
          ∨ ((4 : Int) ≤ ((16 : Nat) : Int) ∧ (4 : Int) ≤ (maxAlloc : Int))))
    ∧ ∃ res, StreamBuffer.setSizeAlloc 16 (StreamBuffer.mk [5, 6] 1) 4 = some res
      ∧ res.status = 0
      ∧ res.b.data = (StreamBuffer.mk [5, 6] 1).data
          ++ List.replicate ((4 : Int) - ((StreamBuffer.mk [5, 6] 1).data.length : Int)).toNat 0
      ∧ (res.b.data.length : Int) = max ((StreamBuffer.mk [5, 6] 1).data.length : Int) 4
      ∧ res.b.data.take (StreamBuffer.mk [5, 6] 1).data.length = (StreamBuffer.mk [5, 6] 1).data
      ∧ res.b.offset = (StreamBuffer.mk [5, 6] 1).offset
      ∧ (∀ (avail2 : Nat) (res2 : StatusResult),
          StreamBuffer.setSizeAlloc avail2 (StreamBuffer.mk [5, 6] 1) 4 = some res2
            → res2 = res) :=
  ⟨⟨by decide, by decide, Or.inr ⟨by decide, by decide⟩⟩,
    C14_setSize_grows 16 (StreamBuffer.mk [5, 6] 1) 4 (by decide) (by decide)
      (Or.inr ⟨by decide, by decide⟩)⟩

/-- C19: the offset is 0 in the state `NewStreamBuffer`, and in a state with
`0 ≤ offset` every operation leaves `0 ≤ offset`, whatever its arguments and whatever
the runtime can allocate: `read` returns and keeps it, `write` and `setSize` keep it
in every state they return, `seek` and the ten fixed-status slots keep it. -/
theorem C19_offset_never_negative (b : StreamBuffer) (buf : List Byte) (n pos : Option Nat)
    (d s : Int) (origin : Nat) (h : 0 ≤ b.offset) :
    NewStreamBuffer.offset = 0
    ∧ (∃ res, StreamBuffer.read b buf n = some res ∧ 0 ≤ res.b.offset)
    ∧ (∀ (avail : Nat) (res : TransferResult),
        StreamBuffer.writeAlloc avail b buf n = some res → 0 ≤ res.b.offset)
    ∧ 0 ≤ (StreamBuffer.seek b d origin pos).b.offset
    ∧ (∀ (avail : Nat) (res : StatusResult),
        StreamBuffer.setSizeAlloc avail b s = some res → 0 ≤ res.b.offset)
    ∧ 0 ≤ (StreamBuffer.queryInterface b).b.offset
    ∧ 0 ≤ (StreamBuffer.addRef b).b.offset
    ∧ 0 ≤ (StreamBuffer.release b).b.offset
    ∧ 0 ≤ (StreamBuffer.copyTo b).b.offset
    ∧ 0 ≤ (StreamBuffer.commit b).b.offset
    ∧ 0 ≤ (StreamBuffer.revert b).b.offset
    ∧ 0 ≤ (StreamBuffer.lockRegion b).b.offset
    ∧ 0 ≤ (StreamBuffer.unlockRegion b).b.offset
    ∧ 0 ≤ (StreamBuffer.stat b).b.offset
    ∧ 0 ≤ (StreamBuffer.clone b).b.offset := by
  refine ⟨rfl, read_offset_nonneg b buf n h, ?_, seek_offset_nonneg b d origin pos h, ?_,
    h, h, h, h, h, h, h, h, h, h⟩
  · intro avail res hres
    exact write_offset_nonneg b buf n h res (writeAlloc_some avail b buf n res hres)
  · intro avail res hres
    rw [setSizeAlloc_some avail b s res hres, setSize_offset]
    exact h

theorem C19_offset_never_negative_witness :
    (0 : Int) ≤ (StreamBuffer.mk [5, 6, 7] 2).offset
    ∧ (NewStreamBuffer.offset = 0
      ∧ (∃ res, StreamBuffer.read (StreamBuffer.mk [5, 6, 7] 2) [0, 0] (some 0) = some res
            ∧ 0 ≤ res.b.offset)
      ∧ (∀ (avail : Nat) (res : TransferResult),
          StreamBuffer.writeAlloc avail (StreamBuffer.mk [5, 6, 7] 2) [0, 0] (some 0) = some res
            → 0 ≤ res.b.offset)
      ∧ 0 ≤ (StreamBuffer.seek (StreamBuffer.mk [5, 6, 7] 2) (-9) 1 (some 0)).b.offset
      ∧ (∀ (avail : Nat) (res : StatusResult),
          StreamBuffer.setSizeAlloc avail (StreamBuffer.mk [5, 6, 7] 2) (-4) = some res
            → 0 ≤ res.b.offset)
      ∧ 0 ≤ (StreamBuffer.queryInterface (StreamBuffer.mk [5, 6, 7] 2)).b.offset
      ∧ 0 ≤ (StreamBuffer.addRef (StreamBuffer.mk [5, 6, 7] 2)).b.offset
      ∧ 0 ≤ (StreamBuffer.release (StreamBuffer.mk [5, 6, 7] 2)).b.offset
      ∧ 0 ≤ (StreamBuffer.copyTo (StreamBuffer.mk [5, 6, 7] 2)).b.offset
      ∧ 0 ≤ (StreamBuffer.commit (StreamBuffer.mk [5, 6, 7] 2)).b.offset
      ∧ 0 ≤ (StreamBuffer.revert (StreamBuffer.mk [5, 6, 7] 2)).b.offset
      ∧ 0 ≤ (StreamBuffer.lockRegion (StreamBuffer.mk [5, 6, 7] 2)).b.offset
      ∧ 0 ≤ (StreamBuffer.unlockRegion (StreamBuffer.mk [5, 6, 7] 2)).b.offset
      ∧ 0 ≤ (StreamBuffer.stat (StreamBuffer.mk [5, 6, 7] 2)).b.offset
      ∧ 0 ≤ (StreamBuffer.clone (StreamBuffer.mk [5, 6, 7] 2)).b.offset) :=
  ⟨by decide, C19_offset_never_negative (StreamBuffer.mk [5, 6, 7] 2) [0, 0] (some 0) (some 0)
    (-9) (-4) 1 (by decide)⟩

end shobjidl
